import Mathlib

/-!
Verification of the proxmox-nlp Ansible integration layer.

Shallow embedding of `proxmox_helpers/ansible_manager.py` and the backup
surface of `proxmox_helpers/ansible_cli.py`, together with proofs of the
specification claims about the playbook registry, the four operation
mappers, the command builder, the subprocess result handling and the
JSON round trip of the extra-vars payload.
-/

namespace ProxmoxNlp

/-- A Python value as it occurs in the extra-vars mappings of this program:
`None`, booleans, arbitrary-precision integers, strings, lists and
string-keyed dicts (the only key type the program ever uses). -/
inductive Val where
  | none : Val
  | bool : Bool → Val
  | int : Int → Val
  | str : String → Val
  | list : List Val → Val
  | dict : List (String × Val) → Val

/-- Python truthiness restricted to the value shapes above:
`None`, `False`, `0`, `""`, `[]` and `{}` are falsy. -/
def truthy : Val → Bool
  | .none => false
  | .bool b => b
  | .int n => decide (n ≠ 0)
  | .str s => decide (s ≠ "")
  | .list [] => false
  | .list (_ :: _) => true
  | .dict [] => false
  | .dict (_ :: _) => true

/-! ## Insertion-ordered dictionaries (Python `dict` semantics)

A `dict` is modelled as an association list in insertion order: setting an
existing key updates the value in place, setting a fresh key appends. -/

/-- Python dict assignment `d[k] = v`: update in place, or append a fresh key. -/
def assocSet {α : Type} : List (String × α) → String → α → List (String × α)
  | [], k, v => [(k, v)]
  | p :: d, k, v => if p.1 = k then (k, v) :: d else p :: assocSet d k v

/-- Python dict lookup `d.get(k)`. -/
def assocLookup {α : Type} : List (String × α) → String → Option α
  | [], _ => Option.none
  | p :: d, k => if p.1 = k then Option.some p.2 else assocLookup d k

/-- Python dict merge `d.update(kw)`: fold the updates left to right. -/
def dictUpdate {α : Type} (d kw : List (String × α)) : List (String × α) :=
  kw.foldl (fun acc p => assocSet acc p.1 p.2) d

/-- Python `list(d.keys())`: insertion order of the keys. -/
def dictKeys {α : Type} (d : List (String × α)) : List String :=
  d.map Prod.fst

/-! ## `json.dumps` (default separators, `ensure_ascii=True`)

The program serializes the extra-vars dict with `json.dumps(extra_vars)`
(ansible_manager.py line 127): item separator `", "`, key separator `": "`,
ASCII-only output with `\uXXXX` escapes. -/

/-- Lowercase hexadecimal digit character for `d < 16`. -/
def hexDig (d : Nat) : Char :=
  if d < 10 then Char.ofNat (48 + d) else Char.ofNat (87 + d)

/-- Four lowercase hex digits of `n % 65536`, as in Python `"%04x"`. -/
def toHex4 (n : Nat) : List Char :=
  [hexDig (n / 4096 % 16), hexDig (n / 256 % 16), hexDig (n / 16 % 16),
   hexDig (n % 16)]

/-- One character of a JSON string literal, as Python's C encoder emits it
with `ensure_ascii=True`: short escapes for the two delimiters and the five
named control characters, printable ASCII verbatim, `\uXXXX` otherwise
(surrogate pairs above the basic multilingual plane). -/
def escapeChar (c : Char) : List Char :=
  if c = '"' then ['\\', '"']
  else if c = '\\' then ['\\', '\\']
  else if c = '\n' then ['\\', 'n']
  else if c = '\t' then ['\\', 't']
  else if c = '\r' then ['\\', 'r']
  else if c.toNat = 8 then ['\\', 'b']
  else if c.toNat = 12 then ['\\', 'f']
  else if 32 ≤ c.toNat ∧ c.toNat ≤ 126 then [c]
  else if c.toNat < 65536 then '\\' :: 'u' :: toHex4 c.toNat
  else
    '\\' :: 'u' :: toHex4 (55296 + (c.toNat - 65536) / 1024) ++
      '\\' :: 'u' :: toHex4 (56320 + (c.toNat - 65536) % 1024)

/-- Encode the body of a JSON string literal character by character. -/
def encodeChars : List Char → List Char
  | [] => []
  | c :: cs => escapeChar c ++ encodeChars cs

/-- A whole JSON string literal, quotes included. -/
def encodeStringLit (s : String) : List Char :=
  '"' :: encodeChars s.data ++ ['"']

/-- Decimal digits of `n`, most significant first, with explicit fuel so the
definition is structural (and hence kernel-reducible). `fuel > n` suffices. -/
def natToCharsAux : Nat → Nat → List Char → List Char
  | 0, _, acc => acc
  | fuel + 1, n, acc =>
    if n < 10 then Char.ofNat (48 + n) :: acc
    else natToCharsAux fuel (n / 10) (Char.ofNat (48 + n % 10) :: acc)

/-- Python `str(n)` for a natural number. -/
def natToChars (n : Nat) : List Char :=
  natToCharsAux (n + 1) n []

/-- Python `str(i)` for an integer: a sign for the negatives, then digits. -/
def intToChars (i : Int) : List Char :=
  if i < 0 then '-' :: natToChars (-i).toNat else natToChars i.toNat

mutual

/-- Serialization `json.dumps` of one value, as a character list. -/
def dumpsV : Val → List Char
  | .none => 'n' :: 'u' :: 'l' :: ['l']
  | .bool true => 't' :: 'r' :: 'u' :: ['e']
  | .bool false => 'f' :: 'a' :: 'l' :: 's' :: ['e']
  | .int i => intToChars i
  | .str s => encodeStringLit s
  | .list [] => ['[', ']']
  | .list (v :: vs) => '[' :: (dumpsV v ++ dumpsItems vs) ++ [']']
  | .dict [] => ['{', '}']
  | .dict (p :: ps) =>
      '{' :: (encodeStringLit p.1 ++ ':' :: ' ' :: dumpsV p.2 ++ dumpsPairs ps)
        ++ ['}']

/-- The remaining array items, each preceded by the `", "` separator. -/
def dumpsItems : List Val → List Char
  | [] => []
  | v :: vs => ',' :: ' ' :: dumpsV v ++ dumpsItems vs

/-- The remaining object members, each preceded by the `", "` separator. -/
def dumpsPairs : List (String × Val) → List Char
  | [] => []
  | p :: ps =>
      ',' :: ' ' :: encodeStringLit p.1 ++ ':' :: ' ' :: dumpsV p.2 ++
        dumpsPairs ps

end

/-- Serialization `json.dumps` of one value, as a string. -/
def dumps (v : Val) : String :=
  String.mk (dumpsV v)

/-! ## `json.loads`, restricted to the grammar fragment `dumps` emits

The round-trip claim is about deserializing the `--extra-vars` payload, so
the parser covers exactly the constructs the serializer produces: `null`,
booleans, integers, strings with the escapes above, arrays and objects,
with optional JSON whitespace. -/

/-- JSON whitespace. -/
def isWsCh (c : Char) : Bool :=
  c = ' ' || c = '\n' || c = '\t' || c = '\r'

/-- Skip leading JSON whitespace. -/
def skipWs (s : List Char) : List Char :=
  s.dropWhile isWsCh

/-- An ASCII decimal digit. -/
def isDigitCh (c : Char) : Bool :=
  48 ≤ c.toNat && c.toNat ≤ 57

/-- Value of one hexadecimal digit character. -/
def hexVal (c : Char) : Option Nat :=
  if 48 ≤ c.toNat ∧ c.toNat ≤ 57 then Option.some (c.toNat - 48)
  else if 97 ≤ c.toNat ∧ c.toNat ≤ 102 then Option.some (c.toNat - 87)
  else if 65 ≤ c.toNat ∧ c.toNat ≤ 70 then Option.some (c.toNat - 55)
  else Option.none

/-- Decode one short escape character. -/
def decodeEsc (e : Char) : Option Char :=
  if e = '"' then Option.some '"'
  else if e = '\\' then Option.some '\\'
  else if e = '/' then Option.some '/'
  else if e = 'n' then Option.some '\n'
  else if e = 't' then Option.some '\t'
  else if e = 'r' then Option.some '\r'
  else if e = 'b' then Option.some (Char.ofNat 8)
  else if e = 'f' then Option.some (Char.ofNat 12)
  else Option.none

/-- Parse the body of a JSON string literal up to the closing quote,
returning the decoded characters and the rest of the input. -/
def parseStringLit : List Char → Option (List Char × List Char)
  | [] => Option.none
  | c :: rest =>
    if c = '"' then Option.some ([], rest)
    else if c = '\\' then
      match rest with
      | 'u' :: h1 :: h2 :: h3 :: h4 :: rest2 =>
        match hexVal h1, hexVal h2, hexVal h3, hexVal h4 with
        | Option.some v1, Option.some v2, Option.some v3, Option.some v4 =>
          (parseStringLit rest2).map (fun p =>
            (Char.ofNat (4096 * v1 + 256 * v2 + 16 * v3 + v4) :: p.1, p.2))
        | _, _, _, _ => Option.none
      | e :: rest2 =>
        match decodeEsc e with
        | Option.some d => (parseStringLit rest2).map
            (fun p => (d :: p.1, p.2))
        | Option.none => Option.none
      | [] => Option.none
    else (parseStringLit rest).map (fun p => (c :: p.1, p.2))

/-- Parse a nonempty run of decimal digits greedily. -/
def parseNatTok (s : List Char) : Option (Nat × List Char) :=
  let ds := s.takeWhile isDigitCh
  if ds = [] then Option.none
  else Option.some (ds.foldl (fun a c => 10 * a + (c.toNat - 48)) 0,
    s.dropWhile isDigitCh)

/-- Parse a JSON integer: an optional minus sign, then digits. -/
def parseIntTok : List Char → Option (Int × List Char)
  | '-' :: rest => (parseNatTok rest).map (fun p => (-(p.1 : Int), p.2))
  | s => (parseNatTok s).map (fun p => ((p.1 : Int), p.2))

/-- Require `w` as a prefix of the input and drop it. -/
def expectChars : List Char → List Char → Option (List Char)
  | [], s => Option.some s
  | c :: w, s =>
    match s with
    | [] => Option.none
    | d :: s2 => if c = d then expectChars w s2 else Option.none

mutual

/-- Parse one JSON value; the fuel dominates the nesting size of the value. -/
def parseV : Nat → List Char → Option (Val × List Char)
  | 0, _ => Option.none
  | fuel + 1, s =>
    match skipWs s with
    | [] => Option.none
    | c :: r =>
      if c = 'n' then
        (expectChars ['u', 'l', 'l'] r).map (fun r2 => (Val.none, r2))
      else if c = 't' then
        (expectChars ['r', 'u', 'e'] r).map (fun r2 => (Val.bool true, r2))
      else if c = 'f' then
        (expectChars ['a', 'l', 's', 'e'] r).map (fun r2 => (Val.bool false, r2))
      else if c = '"' then
        (parseStringLit r).map (fun p => (Val.str (String.mk p.1), p.2))
      else if c = '[' then
        if (skipWs r).head? = Option.some ']' then
          Option.some (Val.list [], (skipWs r).tail)
        else (parseItems fuel (skipWs r)).map (fun p => (Val.list p.1, p.2))
      else if c = '{' then
        if (skipWs r).head? = Option.some '}' then
          Option.some (Val.dict [], (skipWs r).tail)
        else (parseMembers fuel (skipWs r)).map (fun p => (Val.dict p.1, p.2))
      else if c = '-' || isDigitCh c then
        (parseIntTok (c :: r)).map (fun p => (Val.int p.1, p.2))
      else Option.none

/-- Parse one or more comma-separated array items and the closing bracket. -/
def parseItems : Nat → List Char → Option (List Val × List Char)
  | 0, _ => Option.none
  | fuel + 1, s =>
    match parseV fuel s with
    | Option.none => Option.none
    | Option.some (v, r) =>
      if (skipWs r).head? = Option.some ',' then
        (parseItems fuel (skipWs (skipWs r).tail)).map
          (fun p => (v :: p.1, p.2))
      else if (skipWs r).head? = Option.some ']' then
        Option.some ([v], (skipWs r).tail)
      else Option.none

/-- Parse one or more comma-separated object members and the closing brace. -/
def parseMembers : Nat → List Char → Option (List (String × Val) × List Char)
  | 0, _ => Option.none
  | fuel + 1, s =>
    if (skipWs s).head? = Option.some '"' then
      match parseStringLit (skipWs s).tail with
      | Option.none => Option.none
      | Option.some (k, r2) =>
        if (skipWs r2).head? = Option.some ':' then
          match parseV fuel (skipWs (skipWs r2).tail) with
          | Option.none => Option.none
          | Option.some (v, r4) =>
            if (skipWs r4).head? = Option.some ',' then
              (parseMembers fuel (skipWs (skipWs r4).tail)).map
                (fun p => ((String.mk k, v) :: p.1, p.2))
            else if (skipWs r4).head? = Option.some '}' then
              Option.some ([(String.mk k, v)], (skipWs r4).tail)
            else Option.none
        else Option.none
    else Option.none

end

/-- Deserialization `json.loads`: parse a complete document, rejecting trailing garbage. -/
def loads (s : String) : Option Val :=
  match parseV (s.length + 1) s.data with
  | Option.some (v, rest) =>
    if skipWs rest = [] then Option.some v else Option.none
  | Option.none => Option.none

mutual

/-- Parser fuel sufficient for one value: one unit per `parseV` entry plus
what the nested items need. -/
def needV : Val → Nat
  | .none => 1
  | .bool _ => 1
  | .int _ => 1
  | .str _ => 1
  | .list [] => 1
  | .list (v :: vs) => 1 + needItems (v :: vs)
  | .dict [] => 1
  | .dict (p :: ps) => 1 + needPairs (p :: ps)

/-- Fuel sufficient for a nonempty tail of array items. -/
def needItems : List Val → Nat
  | [] => 0
  | v :: vs => 1 + max (needV v) (needItems vs)

/-- Fuel sufficient for a nonempty tail of object members. -/
def needPairs : List (String × Val) → Nat
  | [] => 0
  | p :: ps => 1 + max (needV p.2) (needPairs ps)

end

/-- All characters of the list lie in the basic multilingual plane. -/
def bmpChars (cs : List Char) : Bool :=
  cs.all (fun c => c.toNat < 65536)

mutual

/-- Every string (key or value) inside the value consists of basic
multilingual plane characters, so its serialization needs no surrogate
pairs. -/
def bmpV : Val → Bool
  | .none => true
  | .bool _ => true
  | .int _ => true
  | .str s => bmpChars s.data
  | .list l => bmpItems l
  | .dict d => bmpPairs d

/-- Predicate `bmpV` over array items. -/
def bmpItems : List Val → Bool
  | [] => true
  | v :: vs => bmpV v && bmpItems vs

/-- Predicate `bmpV` over object members. -/
def bmpPairs : List (String × Val) → Bool
  | [] => true
  | p :: ps => (bmpChars p.1.data && bmpV p.2) && bmpPairs ps

end

/-! ## Playbook registry (`AnsibleManager._scan_playbooks`, `list_playbooks`)

`_scan_playbooks` iterates `os.listdir`, keeps files ending in `.yml` or
`.yaml`, and derives the name with
`file.replace('.yml', '').replace('.yaml', '')` — a replace-all of both
substrings, not a suffix strip. -/

/-- Python `s.replace('.yml', '')`: remove every occurrence, scanning left
to right. -/
def replYml : List Char → List Char
  | '.' :: 'y' :: 'm' :: 'l' :: rest => replYml rest
  | c :: rest => c :: replYml rest
  | [] => []

/-- Python `s.replace('.yaml', '')`: remove every occurrence, scanning left
to right. -/
def replYaml : List Char → List Char
  | '.' :: 'y' :: 'a' :: 'm' :: 'l' :: rest => replYaml rest
  | c :: rest => c :: replYaml rest
  | [] => []

/-- Python `file.endswith(('.yml', '.yaml'))`. -/
def recognizedExt (file : String) : Bool :=
  List.isSuffixOf ".yml".data file.data || List.isSuffixOf ".yaml".data file.data

/-- Python `file.replace('.yml', '').replace('.yaml', '')`. -/
def derivedName (file : String) : String :=
  String.mk (replYaml (replYml file.data))

/-- One iteration of the `_scan_playbooks` loop body. -/
def scanStep (dir : String) (acc : List (String × String)) (file : String) :
    List (String × String) :=
  if recognizedExt file then
    assocSet acc (derivedName file) (dir ++ "/" ++ file)
  else acc

/-- Scan `_scan_playbooks`, given the directory listing: fold the loop body over
the listed files, starting from the empty dict. -/
def scanPlaybooks (dir : String) (files : List String) :
    List (String × String) :=
  files.foldl (scanStep dir) []

/-- Method `list_playbooks`: `list(self.available_playbooks.keys())`. -/
def list_playbooks (registry : List (String × String)) : List String :=
  dictKeys registry

/-! ## Process runner (`AnsibleManager.run_playbook`) -/

/-- What the `subprocess.run` call did: either the process completed with an
exit code and captured streams, or spawning raised. -/
inductive SpawnOutcome where
  | completed (returncode : Int) (stdout stderr : String)
  | spawnError (message : String)

/-- The result branch of `run_playbook` (lines 145-154): exit code zero
yields the captured stdout, a non-zero exit yields `"Error: "` plus the
captured stderr, and a raised spawn failure is caught into
`"Exception: "` plus its description. -/
def handleOutcome : SpawnOutcome → Bool × String
  | .completed rc out err =>
    if rc = 0 then (true, out) else (false, "Error: " ++ err)
  | .spawnError e => (false, "Exception: " ++ e)

/-- The command vector of `run_playbook` (lines 110-128): the executable
name and the playbook path, then `-vvv` if verbose, `-l` if the host limit
is truthy, `-t` with the comma-joined tags if the tag list is truthy, and
`--extra-vars` with the JSON payload if the extra-vars dict is truthy. -/
def buildCmd (playbook_path : String) (extra_vars : List (String × Val))
    (limit_hosts : Option String) (tags : Option (List String))
    (verbose : Bool) : List String :=
  let cmd := ["ansible-playbook", playbook_path]
  let cmd := if verbose then cmd ++ ["-vvv"] else cmd
  let cmd :=
    match limit_hosts with
    | Option.some l => if l ≠ "" then cmd ++ ["-l", l] else cmd
    | Option.none => cmd
  let cmd :=
    match tags with
    | Option.some ts =>
      if ts ≠ [] then cmd ++ ["-t", String.intercalate "," ts] else cmd
    | Option.none => cmd
  match extra_vars with
  | [] => cmd
  | _ :: _ => cmd ++ ["--extra-vars", dumps (Val.dict extra_vars)]

/-- Method `run_playbook`, with the subprocess boundary abstracted as `spawn`: an
unknown name fails before any command is built or spawned, naming the
playbook and listing every known name; otherwise the built command runs and
its outcome is folded by `handleOutcome`. -/
def run_playbook (registry : List (String × String)) (playbook_name : String)
    (extra_vars : List (String × Val)) (limit_hosts : Option String)
    (tags : Option (List String)) (verbose : Bool)
    (spawn : List String → SpawnOutcome) : Bool × String :=
  match assocLookup registry playbook_name with
  | Option.none =>
    (false, "Playbook \x27" ++ playbook_name ++ "\x27 not found. " ++
      "Available playbooks: " ++
      String.intercalate ", " (list_playbooks registry))
  | Option.some playbook_path =>
    handleOutcome (spawn (buildCmd playbook_path extra_vars limit_hosts tags
      verbose))

/-! ## The four operation mappers

Each mapper is split into its pure stage — validate the keyword, build the
extra-vars dict, pick the fixed playbook name — and the delegation to
`run_playbook`. The pure stage returns `Except`: `.error` is the early
failed-result, `.ok` the playbook name and variable mapping. -/

/-- The `op_map` literal of `run_vm_management` (lines 176-182). -/
def vmOpMap : List (String × String) :=
  [("create", "present"), ("start", "started"), ("stop", "stopped"),
   ("restart", "restarted"), ("delete", "absent")]

/-- The `op_map` literal of `run_container_management` (lines 221-227). -/
def ctOpMap : List (String × String) :=
  [("create", "present"), ("start", "started"), ("stop", "stopped"),
   ("restart", "restarted"), ("delete", "absent")]

/-- The `valid_operations` literal of `run_backup_management` (line 305). -/
def backupValidOps : List String :=
  ["list", "create", "restore", "delete", "schedule"]

/-- The invalid-operation message shared by the validating mappers. -/
def invalidOpMsg (operation : String) (ops : List String) : String :=
  "Invalid operation \x27" ++ operation ++ "\x27. Must be one of: " ++
    String.intercalate ", " ops

/-- Pure stage of `run_vm_management` (lines 156-199). -/
def vmManagement (operation : String) (vm_id vm_name node : Val)
    (kwargs : List (String × Val)) :
    Except String (String × List (String × Val)) :=
  match assocLookup vmOpMap operation with
  | Option.none => .error (invalidOpMsg operation (dictKeys vmOpMap))
  | Option.some st =>
    let extra_vars : List (String × Val) :=
      [("vm_state", Val.str st), ("vm_id", vm_id), ("vm_name", vm_name)]
    let extra_vars :=
      if truthy node then assocSet extra_vars "vm_node" node else extra_vars
    .ok ("proxmox_vm_manager", dictUpdate extra_vars kwargs)

/-- Pure stage of `run_container_management` (lines 201-244). -/
def ctManagement (operation : String) (ct_id ct_hostname node : Val)
    (kwargs : List (String × Val)) :
    Except String (String × List (String × Val)) :=
  match assocLookup ctOpMap operation with
  | Option.none => .error (invalidOpMsg operation (dictKeys ctOpMap))
  | Option.some st =>
    let extra_vars : List (String × Val) :=
      [("ct_state", Val.str st), ("ct_id", ct_id), ("ct_hostname", ct_hostname)]
    let extra_vars :=
      if truthy node then assocSet extra_vars "ct_node" node else extra_vars
    .ok ("proxmox_container_manager", dictUpdate extra_vars kwargs)

/-- Pure stage of `run_cluster_management` (lines 246-279): note that no
validation of the operation keyword occurs. -/
def clusterManagement (operation : String)
    (target_node source_node cluster_name : Val)
    (kwargs : List (String × Val)) :
    Except String (String × List (String × Val)) :=
  let extra_vars : List (String × Val) := [("operation", Val.str operation)]
  let extra_vars :=
    if truthy target_node then assocSet extra_vars "target_node" target_node
    else extra_vars
  let extra_vars :=
    if truthy source_node then assocSet extra_vars "source_node" source_node
    else extra_vars
  let extra_vars :=
    if truthy cluster_name then assocSet extra_vars "cluster_name" cluster_name
    else extra_vars
  .ok ("proxmox_cluster_manager", dictUpdate extra_vars kwargs)

/-- Pure stage of `run_backup_management` (lines 281-326). -/
def backupManagement (operation : String) (vm_id backup_id storage node : Val)
    (kwargs : List (String × Val)) :
    Except String (String × List (String × Val)) :=
  if List.elem operation backupValidOps then
    let extra_vars : List (String × Val) := [("operation", Val.str operation)]
    let extra_vars :=
      if truthy vm_id then assocSet extra_vars "vm_id" vm_id else extra_vars
    let extra_vars :=
      if truthy backup_id then assocSet extra_vars "backup_id" backup_id
      else extra_vars
    let extra_vars :=
      if truthy storage then assocSet extra_vars "storage" storage
      else extra_vars
    let extra_vars :=
      if truthy node then assocSet extra_vars "node" node else extra_vars
    .ok ("proxmox_backup_manager", dictUpdate extra_vars kwargs)
  else .error (invalidOpMsg operation backupValidOps)

/-- Delegation shared by the four mappers: an `.error` is returned as the
failed result, an `.ok` runs the fixed playbook with the built variables
(`extra_vars` only — no host limit, tags, or verbosity). -/
def dispatch (registry : List (String × String))
    (staged : Except String (String × List (String × Val)))
    (spawn : List String → SpawnOutcome) : Bool × String :=
  match staged with
  | .error msg => (false, msg)
  | .ok (playbook, extra_vars) =>
    run_playbook registry playbook extra_vars Option.none Option.none false
      spawn

/-- Method `run_vm_management`, end to end. -/
def run_vm_management (registry : List (String × String)) (operation : String)
    (vm_id vm_name node : Val) (kwargs : List (String × Val))
    (spawn : List String → SpawnOutcome) : Bool × String :=
  dispatch registry (vmManagement operation vm_id vm_name node kwargs) spawn

/-- Method `run_container_management`, end to end. -/
def run_container_management (registry : List (String × String))
    (operation : String) (ct_id ct_hostname node : Val)
    (kwargs : List (String × Val)) (spawn : List String → SpawnOutcome) :
    Bool × String :=
  dispatch registry (ctManagement operation ct_id ct_hostname node kwargs)
    spawn

/-- Method `run_cluster_management`, end to end. -/
def run_cluster_management (registry : List (String × String))
    (operation : String) (target_node source_node cluster_name : Val)
    (kwargs : List (String × Val)) (spawn : List String → SpawnOutcome) :
    Bool × String :=
  dispatch registry
    (clusterManagement operation target_node source_node cluster_name kwargs)
    spawn

/-- Method `run_backup_management`, end to end. -/
def run_backup_management (registry : List (String × String))
    (operation : String) (vm_id backup_id storage node : Val)
    (kwargs : List (String × Val)) (spawn : List String → SpawnOutcome) :
    Bool × String :=
  dispatch registry (backupManagement operation vm_id backup_id storage node
    kwargs) spawn

/-- Whether a staged mapper result proceeds to the playbook run. -/
def stagedOk (staged : Except String (String × List (String × Val))) : Bool :=
  match staged with
  | .ok _ => true
  | .error _ => false

/-- The variable mapping of a staged mapper result (empty on an error). -/
def stagedVars (staged : Except String (String × List (String × Val))) :
    List (String × Val) :=
  match staged with
  | .ok (_, extra_vars) => extra_vars
  | .error _ => []

/-- The target playbook of a staged mapper result (empty on an error). -/
def stagedPlaybook (staged : Except String (String × List (String × Val))) :
    String :=
  match staged with
  | .ok (playbook, _) => playbook
  | .error _ => ""

/-! ## CLI backup surface (`ansible_cli.parse_args`, `handle_backup_command`)

`argparse` `choices` for the backup sub-command (ansible_cli.py lines
86-101): a flag value is accepted exactly when it is one of the choices. -/

/-- CLI `cluster --operation` choices (line 78). -/
def clusterOpChoices : List String :=
  ["status", "create_cluster", "join_cluster", "leave_cluster", "enable_ha"]

/-- CLI `--mode` choices (line 93). -/
def backupModeChoices : List String := ["snapshot", "suspend", "stop"]

/-- CLI `--compress` choices (line 95). -/
def backupCompressChoices : List String := ["0", "gzip", "lzo", "zstd"]

/-- Model of `argparse` acceptance of a flag value against a `choices` list. -/
def argparseAccepts (choices : List String) (value : String) : Bool :=
  List.elem value choices

/-- The kwargs dict `handle_backup_command` builds (lines 247-262): the five
schedule flags when not `None`, then `mode` and `compress` when truthy. -/
def backupCliKwargs
    (schedule_hour schedule_minute schedule_day schedule_month
      schedule_weekday mode compress : Option String) :
    List (String × Val) :=
  let step := fun (acc : List (String × Val)) (p : String × Option String) =>
    match p.2 with
    | Option.some v => assocSet acc p.1 (Val.str v)
    | Option.none => acc
  let kwargs := [("schedule_hour", schedule_hour),
    ("schedule_minute", schedule_minute), ("schedule_day", schedule_day),
    ("schedule_month", schedule_month),
    ("schedule_weekday", schedule_weekday)].foldl step []
  let kwargs :=
    match mode with
    | Option.some m =>
      if m ≠ "" then assocSet kwargs "mode" (Val.str m) else kwargs
    | Option.none => kwargs
  match compress with
  | Option.some c =>
    if c ≠ "" then assocSet kwargs "compress" (Val.str c) else kwargs
  | Option.none => kwargs

/-! ## Dictionary lemmas -/

theorem assocLookup_assocSet_self {α : Type} (d : List (String × α))
    (k : String) (v : α) : assocLookup (assocSet d k v) k = Option.some v := by
  induction d with
  | nil => simp [assocSet, assocLookup]
  | cons p d ih =>
    by_cases h : p.1 = k
    · simp [assocSet, assocLookup, h]
    · simp [assocSet, assocLookup, h, ih]

theorem assocLookup_assocSet_ne {α : Type} (d : List (String × α))
    {k q : String} (v : α) (h : q ≠ k) :
    assocLookup (assocSet d k v) q = assocLookup d q := by
  have hk : ¬(k = q) := fun hh => h hh.symm
  induction d with
  | nil => simp [assocSet, assocLookup, hk]
  | cons p d ih =>
    by_cases hp : p.1 = k
    · simp [assocSet, assocLookup, hp, hk]
    · by_cases hq : p.1 = q
      · simp [assocSet, assocLookup, hp, hq, h, hk]
      · simp [assocSet, assocLookup, hp, hq, ih]

theorem dictKeys_assocSet_not_mem {α : Type} (d : List (String × α))
    {k : String} (v : α) (h : k ∉ dictKeys d) :
    dictKeys (assocSet d k v) = dictKeys d ++ [k] := by
  induction d with
  | nil => simp [assocSet, dictKeys]
  | cons p d ih =>
    simp only [dictKeys, List.map_cons, List.mem_cons, not_or] at h
    have hp : ¬(p.1 = k) := fun hh => h.1 hh.symm
    simp only [assocSet, hp, if_false, dictKeys, List.map_cons,
      List.cons_append, List.cons.injEq, true_and]
    exact ih h.2

theorem assocLookup_dictUpdate_not_mem {α : Type} (d kw : List (String × α))
    {k : String} (h : k ∉ dictKeys kw) :
    assocLookup (dictUpdate d kw) k = assocLookup d k := by
  induction kw generalizing d with
  | nil => rfl
  | cons p kw ih =>
    simp only [dictKeys, List.map_cons, List.mem_cons, not_or] at h
    have step : dictUpdate d (p :: kw) = dictUpdate (assocSet d p.1 p.2) kw :=
      rfl
    rw [step, ih _ h.2, assocLookup_assocSet_ne _ _ h.1]

theorem assocLookup_dictUpdate_mem {α : Type} (d kw : List (String × α))
    {k : String} {v : α} (hnd : (dictKeys kw).Nodup) (hmem : (k, v) ∈ kw) :
    assocLookup (dictUpdate d kw) k = Option.some v := by
  induction kw generalizing d with
  | nil => cases hmem
  | cons p kw ih =>
    simp only [dictKeys, List.map_cons, List.nodup_cons] at hnd
    have step : dictUpdate d (p :: kw) = dictUpdate (assocSet d p.1 p.2) kw :=
      rfl
    rcases List.mem_cons.mp hmem with h1 | h1
    · have hp : p = (k, v) := h1.symm
      subst hp
      rw [step, assocLookup_dictUpdate_not_mem _ _ hnd.1,
        assocLookup_assocSet_self]
    · exact step ▸ ih _ hnd.2 h1

theorem assocLookup_condSet {α : Type} (b : Prop) [Decidable b]
    (d : List (String × α)) {k q : String} (v : α) (h : q ≠ k) :
    assocLookup (if b then assocSet d k v else d) q = assocLookup d q := by
  split
  · exact assocLookup_assocSet_ne d v h
  · rfl

theorem lookup_vmOpMap {op st : String} (h : (op, st) ∈ vmOpMap) :
    assocLookup vmOpMap op = Option.some st := by
  simp only [vmOpMap, List.mem_cons, List.not_mem_nil, or_false] at h
  rcases h with h | h | h | h | h <;> (cases h; rfl)

theorem lookup_ctOpMap {op st : String} (h : (op, st) ∈ ctOpMap) :
    assocLookup ctOpMap op = Option.some st := by
  simp only [ctOpMap, List.mem_cons, List.not_mem_nil, or_false] at h
  rcases h with h | h | h | h | h <;> (cases h; rfl)

/-! ## Claim C1 -/

/-- Claim C1, counterexample: the operation keyword `"bogus"` lies outside
the enumerated cluster set, yet `run_cluster_management` does not return a
failed result — the staged mapper proceeds, and with a registry containing
the cluster playbook the subprocess runs and its success is reported. -/
theorem C1_counterexample :
    List.elem "bogus" clusterOpChoices = false ∧
    stagedOk (clusterManagement "bogus" Val.none Val.none Val.none []) =
      true ∧
    run_cluster_management
      [("proxmox_cluster_manager", "/pb/proxmox_cluster_manager.yml")]
      "bogus" Val.none Val.none Val.none []
      (fun _ => SpawnOutcome.completed 0 "cluster out" "") =
      (true, "cluster out") :=
  ⟨rfl, rfl, rfl⟩

/-- Claim C1 (amended): `run_cluster_management` performs no validation of
its operation keyword — for every keyword, inside or outside the enumerated
set, the staged mapper succeeds, targets `proxmox_cluster_manager`, and
passes the keyword through unchanged as the `operation` variable, so no
invalid-operation failure is ever produced — whereas the VM, container and
backup mappers do fail fast on a keyword outside their enumerated sets,
returning the invalid-operation message without consulting the subprocess
boundary at all. -/
theorem C1_cluster_no_validation :
    (∀ (op : String) (tn sn cn : Val) (kw : List (String × Val)),
      stagedOk (clusterManagement op tn sn cn kw) = true ∧
      stagedPlaybook (clusterManagement op tn sn cn kw) =
        "proxmox_cluster_manager" ∧
      assocLookup (stagedVars (clusterManagement op tn sn cn []))
        "operation" = Option.some (Val.str op)) ∧
    (∀ (op : String), assocLookup vmOpMap op = Option.none →
      ∀ (i n nd : Val) (kw : List (String × Val))
        (registry : List (String × String))
        (spawn : List String → SpawnOutcome),
        run_vm_management registry op i n nd kw spawn =
          (false, invalidOpMsg op (dictKeys vmOpMap))) ∧
    (∀ (op : String), assocLookup ctOpMap op = Option.none →
      ∀ (i n nd : Val) (kw : List (String × Val))
        (registry : List (String × String))
        (spawn : List String → SpawnOutcome),
        run_container_management registry op i n nd kw spawn =
          (false, invalidOpMsg op (dictKeys ctOpMap))) ∧
    (∀ (op : String), List.elem op backupValidOps = false →
      ∀ (vid bid st nd : Val) (kw : List (String × Val))
        (registry : List (String × String))
        (spawn : List String → SpawnOutcome),
        run_backup_management registry op vid bid st nd kw spawn =
          (false, invalidOpMsg op backupValidOps)) := by
  refine ⟨?_, ?_, ?_, ?_⟩
  · intro op tn sn cn kw
    refine ⟨rfl, rfl, ?_⟩
    simp only [clusterManagement, stagedVars, dictUpdate, List.foldl_nil]
    rw [assocLookup_condSet _ _ _ (by decide : "operation" ≠ "cluster_name"),
      assocLookup_condSet _ _ _ (by decide : "operation" ≠ "source_node"),
      assocLookup_condSet _ _ _ (by decide : "operation" ≠ "target_node")]
    rfl
  · intro op h i n nd kw registry spawn
    unfold run_vm_management dispatch vmManagement
    rw [h]
  · intro op h i n nd kw registry spawn
    unfold run_container_management dispatch ctManagement
    rw [h]
  · intro op h vid bid st nd kw registry spawn
    unfold run_backup_management dispatch backupManagement
    rw [if_neg (by rw [h]; simp)]

/-- Witness for claim C1 (amended): with the keyword `"bogus"`, outside
every enumerated set, the cluster mapper proceeds while the VM, container
and backup mappers return the invalid-operation failure. -/
theorem C1_witness :
    stagedOk (clusterManagement "bogus" Val.none Val.none Val.none []) =
      true ∧
    run_vm_management [] "bogus" Val.none Val.none Val.none []
      (fun _ => SpawnOutcome.completed 0 "" "") =
      (false, invalidOpMsg "bogus" (dictKeys vmOpMap)) ∧
    run_container_management [] "bogus" Val.none Val.none Val.none []
      (fun _ => SpawnOutcome.completed 0 "" "") =
      (false, invalidOpMsg "bogus" (dictKeys ctOpMap)) ∧
    run_backup_management [] "bogus" Val.none Val.none Val.none Val.none []
      (fun _ => SpawnOutcome.completed 0 "" "") =
      (false, invalidOpMsg "bogus" backupValidOps) :=
  ⟨(C1_cluster_no_validation.1 "bogus" Val.none Val.none Val.none []).1,
    C1_cluster_no_validation.2.1 "bogus" rfl Val.none Val.none Val.none [] []
      (fun _ => SpawnOutcome.completed 0 "" ""),
    C1_cluster_no_validation.2.2.1 "bogus" rfl Val.none Val.none Val.none []
      [] (fun _ => SpawnOutcome.completed 0 "" ""),
    C1_cluster_no_validation.2.2.2 "bogus" rfl Val.none Val.none Val.none
      Val.none [] [] (fun _ => SpawnOutcome.completed 0 "" "")⟩

/-! ## Claim C2 -/

/-- Claim C2: for a playbook name missing from the registry, `run_playbook`
returns `succeeded = false` with a message naming the playbook and listing
every known playbook name, and the result does not depend on the subprocess
boundary at all — no command is executed. -/
theorem C2_unknown_playbook (registry : List (String × String))
    (name : String) (ev : List (String × Val)) (lh : Option String)
    (tags : Option (List String)) (vb : Bool)
    (spawn : List String → SpawnOutcome)
    (h : assocLookup registry name = Option.none) :
    run_playbook registry name ev lh tags vb spawn =
      (false, "Playbook \x27" ++ name ++ "\x27 not found. " ++
        "Available playbooks: " ++
        String.intercalate ", " (list_playbooks registry)) ∧
    ∀ (spawn2 : List String → SpawnOutcome),
      run_playbook registry name ev lh tags vb spawn =
        run_playbook registry name ev lh tags vb spawn2 := by
  unfold run_playbook
  rw [h]
  exact ⟨rfl, fun _ => rfl⟩

/-- Witness for claim C2: the spec scenario of an unknown name against an
empty registry, with the advisory list empty. -/
theorem C2_witness :
    run_playbook [] "missing_playbook" [] Option.none Option.none false
      (fun _ => SpawnOutcome.completed 0 "" "") =
      (false,
        "Playbook \x27missing_playbook\x27 not found. Available playbooks: ") :=
  ((C2_unknown_playbook [] "missing_playbook" [] Option.none Option.none
    false _ rfl).1).trans (by rfl)

/-! ## Claim C3 -/

/-- Claim C3: once the playbook name resolves, the result of `run_playbook`
is a pure function of the subprocess outcome — exit code zero returns the
captured stdout with `succeeded = true`; any non-zero exit code returns
`succeeded = false` with `"Error: "` plus the captured stderr; a spawn
failure is caught into `succeeded = false` with `"Exception: "` plus the
failure description instead of propagating. -/
theorem C3_outcome_handling (registry : List (String × String))
    (name path : String) (ev : List (String × Val)) (lh : Option String)
    (tags : Option (List String)) (vb : Bool) (o : SpawnOutcome)
    (h : assocLookup registry name = Option.some path) :
    run_playbook registry name ev lh tags vb (fun _ => o) =
      (match o with
       | .completed rc out err =>
         if rc = 0 then (true, out) else (false, "Error: " ++ err)
       | .spawnError e => (false, "Exception: " ++ e)) := by
  unfold run_playbook
  rw [h]
  cases o <;> rfl

/-- Witness for claim C3: the spec scenario — exit code 2 with stderr
`"host unreachable"` yields `(false, "Error: host unreachable")`. -/
theorem C3_witness :
    run_playbook [("site", "/pb/site.yml")] "site" [] Option.none Option.none
      false (fun _ => SpawnOutcome.completed 2 "" "host unreachable") =
      (false, "Error: host unreachable") :=
  (C3_outcome_handling [("site", "/pb/site.yml")] "site" "/pb/site.yml" []
    Option.none Option.none false
    (SpawnOutcome.completed 2 "" "host unreachable") rfl).trans (by rfl)

/-! ## Claim C9 -/

/-- Claim C9: because `extra_vars.update(kwargs)` runs after the base fields
are written, keyword attributes named like a base field overwrite it — shown
here for `vm_state`, `vm_id`, `vm_name`, `vm_node`, `ct_state`, and the
`operation` base key of the backup and cluster mappers. -/
theorem C9_kwargs_overwrite_base :
    assocLookup (stagedVars (vmManagement "create" (Val.str "100")
      (Val.str "test") Val.none [("vm_state", Val.str "absent")])) "vm_state" =
      Option.some (Val.str "absent") ∧
    assocLookup (stagedVars (vmManagement "create" (Val.str "100")
      (Val.str "test") Val.none [("vm_id", Val.str "999")])) "vm_id" =
      Option.some (Val.str "999") ∧
    assocLookup (stagedVars (vmManagement "create" (Val.str "100")
      (Val.str "test") Val.none [("vm_name", Val.str "other")])) "vm_name" =
      Option.some (Val.str "other") ∧
    assocLookup (stagedVars (vmManagement "create" (Val.str "100")
      (Val.str "test") (Val.str "node1")
      [("vm_node", Val.str "node2")])) "vm_node" =
      Option.some (Val.str "node2") ∧
    assocLookup (stagedVars (ctManagement "start" (Val.str "200")
      (Val.str "ct1") Val.none [("ct_state", Val.str "absent")])) "ct_state" =
      Option.some (Val.str "absent") ∧
    assocLookup (stagedVars (backupManagement "create" (Val.str "100")
      Val.none Val.none Val.none [("operation", Val.str "delete")]))
      "operation" = Option.some (Val.str "delete") ∧
    assocLookup (stagedVars (clusterManagement "status" Val.none Val.none
      Val.none [("operation", Val.str "leave_cluster")])) "operation" =
      Option.some (Val.str "leave_cluster") :=
  ⟨rfl, rfl, rfl, rfl, rfl, rfl, rfl⟩

/-! ## Claim C10 -/

/-- Claim C10: the backup mapper writes the `vm_id`, `backup_id`, `storage`
and `node` keys only for truthy values (so an integer `0` or an empty string
is omitted entirely), while the VM mapper always writes `vm_id` and
`vm_name`, even for absent (`None`) values. -/
theorem C10_backup_truthy_inclusion (op : String)
    (hop : List.elem op backupValidOps = true) (vid bid st nd : Val) :
    (assocLookup (stagedVars (backupManagement op vid bid st nd [])) "vm_id" =
      if truthy vid then Option.some vid else Option.none) ∧
    (assocLookup (stagedVars (backupManagement op vid bid st nd []))
      "backup_id" =
      if truthy bid then Option.some bid else Option.none) ∧
    (assocLookup (stagedVars (backupManagement op vid bid st nd []))
      "storage" =
      if truthy st then Option.some st else Option.none) ∧
    (assocLookup (stagedVars (backupManagement op vid bid st nd [])) "node" =
      if truthy nd then Option.some nd else Option.none) ∧
    (∀ (op2 st2 : String), (op2, st2) ∈ vmOpMap → ∀ (i n m : Val),
      assocLookup (stagedVars (vmManagement op2 i n m [])) "vm_id" =
        Option.some i ∧
      assocLookup (stagedVars (vmManagement op2 i n m [])) "vm_name" =
        Option.some n) := by
  simp only [backupManagement, hop, if_true, stagedVars, dictUpdate,
    List.foldl_nil]
  refine ⟨?_, ?_, ?_, ?_, ?_⟩
  · rw [assocLookup_condSet _ _ _ (by decide : "vm_id" ≠ "node"),
      assocLookup_condSet _ _ _ (by decide : "vm_id" ≠ "storage"),
      assocLookup_condSet _ _ _ (by decide : "vm_id" ≠ "backup_id")]
    by_cases hv : truthy vid = true
    · rw [if_pos hv, if_pos hv, assocLookup_assocSet_self]
    · rw [if_neg hv, if_neg hv]
      rfl
  · rw [assocLookup_condSet _ _ _ (by decide : "backup_id" ≠ "node"),
      assocLookup_condSet _ _ _ (by decide : "backup_id" ≠ "storage")]
    by_cases hb : truthy bid = true
    · rw [if_pos hb, if_pos hb, assocLookup_assocSet_self]
    · rw [if_neg hb, if_neg hb,
        assocLookup_condSet _ _ _ (by decide : "backup_id" ≠ "vm_id")]
      rfl
  · rw [assocLookup_condSet _ _ _ (by decide : "storage" ≠ "node")]
    by_cases hs : truthy st = true
    · rw [if_pos hs, if_pos hs, assocLookup_assocSet_self]
    · rw [if_neg hs, if_neg hs,
        assocLookup_condSet _ _ _ (by decide : "storage" ≠ "backup_id"),
        assocLookup_condSet _ _ _ (by decide : "storage" ≠ "vm_id")]
      rfl
  · by_cases hn : truthy nd = true
    · rw [if_pos hn, if_pos hn, assocLookup_assocSet_self]
    · rw [if_neg hn, if_neg hn,
        assocLookup_condSet _ _ _ (by decide : "node" ≠ "storage"),
        assocLookup_condSet _ _ _ (by decide : "node" ≠ "backup_id"),
        assocLookup_condSet _ _ _ (by decide : "node" ≠ "vm_id")]
      rfl
  · intro op2 st2 h2 i n m
    simp only [vmManagement, lookup_vmOpMap h2, stagedVars, dictUpdate,
      List.foldl_nil]
    constructor
    · rw [assocLookup_condSet _ _ _ (by decide : "vm_id" ≠ "vm_node")]
      rfl
    · rw [assocLookup_condSet _ _ _ (by decide : "vm_name" ≠ "vm_node")]
      rfl

/-- Witness for claim C10: `vm_id = 0` (falsy integer) and an empty-string
`backup_id` are dropped from the backup mapping while the truthy storage
value stays; the VM mapper keeps an absent `vm_id` as an explicit null. -/
theorem C10_witness :
    assocLookup (stagedVars (backupManagement "create" (Val.int 0)
      (Val.str "") (Val.str "local") Val.none [])) "vm_id" = Option.none ∧
    assocLookup (stagedVars (backupManagement "create" (Val.int 0)
      (Val.str "") (Val.str "local") Val.none [])) "backup_id" =
      Option.none ∧
    assocLookup (stagedVars (backupManagement "create" (Val.int 0)
      (Val.str "") (Val.str "local") Val.none [])) "storage" =
      Option.some (Val.str "local") ∧
    assocLookup (stagedVars (vmManagement "create" Val.none Val.none Val.none
      [])) "vm_id" = Option.some Val.none := by
  have h := C10_backup_truthy_inclusion "create" rfl (Val.int 0) (Val.str "")
    (Val.str "local") Val.none
  exact ⟨h.1.trans (by rfl), h.2.1.trans (by rfl), h.2.2.1.trans (by rfl),
    (h.2.2.2.2 "create" "present" (by simp [vmOpMap]) Val.none Val.none
      Val.none).1⟩

/-! ## Claim C5 -/

/-- Claim C5: for each lifecycle keyword in the enumerated set, the VM and
container mappers write the respective mapped state keyword into
`vm_state` / `ct_state`, always write the identifier and display
name/hostname, write the node key exactly for a truthy node (so only when a
node is provided), and merge additional attributes — attributes whose names
are not among the base fields — verbatim under their own names. -/
theorem C5_lifecycle_mapping (op st : String) (hop : (op, st) ∈ vmOpMap)
    (i n nd : Val) (kw : List (String × Val)) (hnd : (dictKeys kw).Nodup)
    (hvm : ∀ p ∈ kw,
      p.1 ∉ (["vm_state", "vm_id", "vm_name", "vm_node"] : List String))
    (hct : ∀ p ∈ kw,
      p.1 ∉ (["ct_state", "ct_id", "ct_hostname", "ct_node"] : List String)) :
    (stagedOk (vmManagement op i n nd kw) = true ∧
     stagedPlaybook (vmManagement op i n nd kw) = "proxmox_vm_manager" ∧
     assocLookup (stagedVars (vmManagement op i n nd kw)) "vm_state" =
       Option.some (Val.str st) ∧
     assocLookup (stagedVars (vmManagement op i n nd kw)) "vm_id" =
       Option.some i ∧
     assocLookup (stagedVars (vmManagement op i n nd kw)) "vm_name" =
       Option.some n ∧
     assocLookup (stagedVars (vmManagement op i n nd kw)) "vm_node" =
       (if truthy nd then Option.some nd else Option.none) ∧
     ∀ q v, (q, v) ∈ kw →
       assocLookup (stagedVars (vmManagement op i n nd kw)) q =
         Option.some v) ∧
    (stagedOk (ctManagement op i n nd kw) = true ∧
     stagedPlaybook (ctManagement op i n nd kw) =
       "proxmox_container_manager" ∧
     assocLookup (stagedVars (ctManagement op i n nd kw)) "ct_state" =
       Option.some (Val.str st) ∧
     assocLookup (stagedVars (ctManagement op i n nd kw)) "ct_id" =
       Option.some i ∧
     assocLookup (stagedVars (ctManagement op i n nd kw)) "ct_hostname" =
       Option.some n ∧
     assocLookup (stagedVars (ctManagement op i n nd kw)) "ct_node" =
       (if truthy nd then Option.some nd else Option.none) ∧
     ∀ q v, (q, v) ∈ kw →
       assocLookup (stagedVars (ctManagement op i n nd kw)) q =
         Option.some v) := by
  have hvmk : ∀ k : String,
      k ∈ (["vm_state", "vm_id", "vm_name", "vm_node"] : List String) →
      k ∉ dictKeys kw := by
    intro k hk hmem
    rcases List.mem_map.mp hmem with ⟨p, hp, hpk⟩
    exact hvm p hp (hpk ▸ hk)
  have hctk : ∀ k : String,
      k ∈ (["ct_state", "ct_id", "ct_hostname", "ct_node"] : List String) →
      k ∉ dictKeys kw := by
    intro k hk hmem
    rcases List.mem_map.mp hmem with ⟨p, hp, hpk⟩
    exact hct p hp (hpk ▸ hk)
  have hopc : (op, st) ∈ ctOpMap := hop
  constructor
  · simp only [vmManagement, lookup_vmOpMap hop, stagedOk, stagedPlaybook,
      stagedVars]
    refine ⟨trivial, trivial, ?_, ?_, ?_, ?_, ?_⟩
    · rw [assocLookup_dictUpdate_not_mem _ _ (hvmk "vm_state" (by simp)),
        assocLookup_condSet _ _ _ (by decide : "vm_state" ≠ "vm_node")]
      rfl
    · rw [assocLookup_dictUpdate_not_mem _ _ (hvmk "vm_id" (by simp)),
        assocLookup_condSet _ _ _ (by decide : "vm_id" ≠ "vm_node")]
      rfl
    · rw [assocLookup_dictUpdate_not_mem _ _ (hvmk "vm_name" (by simp)),
        assocLookup_condSet _ _ _ (by decide : "vm_name" ≠ "vm_node")]
      rfl
    · rw [assocLookup_dictUpdate_not_mem _ _ (hvmk "vm_node" (by simp))]
      by_cases hn : truthy nd = true
      · rw [if_pos hn, if_pos hn, assocLookup_assocSet_self]
      · rw [if_neg hn, if_neg hn]
        rfl
    · intro q v hqv
      exact assocLookup_dictUpdate_mem _ _ hnd hqv
  · simp only [ctManagement, lookup_ctOpMap hopc, stagedOk, stagedPlaybook,
      stagedVars]
    refine ⟨trivial, trivial, ?_, ?_, ?_, ?_, ?_⟩
    · rw [assocLookup_dictUpdate_not_mem _ _ (hctk "ct_state" (by simp)),
        assocLookup_condSet _ _ _ (by decide : "ct_state" ≠ "ct_node")]
      rfl
    · rw [assocLookup_dictUpdate_not_mem _ _ (hctk "ct_id" (by simp)),
        assocLookup_condSet _ _ _ (by decide : "ct_id" ≠ "ct_node")]
      rfl
    · rw [assocLookup_dictUpdate_not_mem _ _ (hctk "ct_hostname" (by simp)),
        assocLookup_condSet _ _ _ (by decide : "ct_hostname" ≠ "ct_node")]
      rfl
    · rw [assocLookup_dictUpdate_not_mem _ _ (hctk "ct_node" (by simp))]
      by_cases hn : truthy nd = true
      · rw [if_pos hn, if_pos hn, assocLookup_assocSet_self]
      · rw [if_neg hn, if_neg hn]
        rfl
    · intro q v hqv
      exact assocLookup_dictUpdate_mem _ _ hnd hqv

/-- Witness for claim C5: the spec scenario — VM create with
`vm_id = "100"`, `vm_name = "test"`, `memory = 2048` and no node yields
exactly the mapping of the claim, with no `vm_node` key. -/
theorem C5_witness :
    stagedVars (vmManagement "create" (Val.str "100") (Val.str "test")
      Val.none [("memory", Val.int 2048)]) =
      [("vm_state", Val.str "present"), ("vm_id", Val.str "100"),
       ("vm_name", Val.str "test"), ("memory", Val.int 2048)] ∧
    assocLookup (stagedVars (vmManagement "create" (Val.str "100")
      (Val.str "test") Val.none [("memory", Val.int 2048)])) "vm_state" =
      Option.some (Val.str "present") ∧
    assocLookup (stagedVars (vmManagement "create" (Val.str "100")
      (Val.str "test") Val.none [("memory", Val.int 2048)])) "vm_node" =
      Option.none ∧
    assocLookup (stagedVars (vmManagement "create" (Val.str "100")
      (Val.str "test") Val.none [("memory", Val.int 2048)])) "memory" =
      Option.some (Val.int 2048) := by
  have h := C5_lifecycle_mapping "create" "present" (by simp [vmOpMap])
    (Val.str "100") (Val.str "test") Val.none [("memory", Val.int 2048)]
    (by simp [dictKeys]) (by simp) (by simp)
  exact ⟨rfl, h.1.2.2.1, (h.1.2.2.2.2.2.1).trans (by rfl),
    h.1.2.2.2.2.2.2 "memory" (Val.int 2048) (by simp)⟩

/-! ## Claim C6 -/

/-- Claim C6: for a resolvable playbook name (with a host limit that is
given as a nonempty string or not at all, and a tag list that is given
nonempty or not at all), the subprocess receives exactly the argument
vector: playbook path first, then `-vvv` iff verbose, then `-l <hosts>` iff
a host limit is given, then `-t <comma-joined tags>` iff tags are given,
then `--extra-vars <json>` iff the extra-vars mapping is nonempty, where
the json is the compact serialization of the mapping. -/
theorem C6_command_vector (registry : List (String × String))
    (name path : String) (ev : List (String × Val)) (lh : Option String)
    (tags : Option (List String)) (vb : Bool)
    (spawn : List String → SpawnOutcome)
    (hres : assocLookup registry name = Option.some path)
    (hlh : lh ≠ Option.some "") (htg : tags ≠ Option.some []) :
    run_playbook registry name ev lh tags vb spawn =
      handleOutcome (spawn (["ansible-playbook", path] ++
        (if vb then ["-vvv"] else []) ++
        (match lh with
         | Option.some l => ["-l", l]
         | Option.none => []) ++
        (match tags with
         | Option.some ts => ["-t", String.intercalate "," ts]
         | Option.none => []) ++
        (match ev with
         | [] => []
         | _ :: _ => ["--extra-vars", dumps (Val.dict ev)]))) := by
  have hcmd : buildCmd path ev lh tags vb = ["ansible-playbook", path] ++
      (if vb then ["-vvv"] else []) ++
      (match lh with
       | Option.some l => ["-l", l]
       | Option.none => []) ++
      (match tags with
       | Option.some ts => ["-t", String.intercalate "," ts]
       | Option.none => []) ++
      (match ev with
       | [] => []
       | _ :: _ => ["--extra-vars", dumps (Val.dict ev)]) := by
    unfold buildCmd
    cases lh with
    | none =>
      cases tags with
      | none => cases vb <;> cases ev <;> simp
      | some ts =>
        have hts : ts ≠ [] := fun hh => htg (hh ▸ rfl)
        cases vb <;> cases ev <;> simp [hts]
    | some l =>
      have hl : l ≠ "" := fun hh => hlh (hh ▸ rfl)
      cases tags with
      | none => cases vb <;> cases ev <;> simp [hl]
      | some ts =>
        have hts : ts ≠ [] := fun hh => htg (hh ▸ rfl)
        cases vb <;> cases ev <;> simp [hl, hts]
  unfold run_playbook
  rw [hres]
  show handleOutcome (spawn (buildCmd path ev lh tags vb)) = _
  rw [hcmd]

/-- Witness for claim C6: a fully loaded invocation — verbose, host limit,
two tags and a nonempty mapping — runs and relays the captured stdout. -/
theorem C6_witness :
    run_playbook [("pb", "/a/pb.yml")] "pb" [("a", Val.int 1)]
      (Option.some "web") (Option.some ["setup", "config"]) true
      (fun _ => SpawnOutcome.completed 0 "ok" "") = (true, "ok") := by
  rw [C6_command_vector [("pb", "/a/pb.yml")] "pb" "/a/pb.yml"
    [("a", Val.int 1)] (Option.some "web") (Option.some ["setup", "config"])
    true _ rfl (by simp) (by simp)]
  rfl

/-! ## Claim C8 -/

/-- Claim C8, counterexample: the command surface accepts the compression
value `"0"`, which is not in the claimed set, and rejects `"none"`, which
is. -/
theorem C8_counterexample :
    argparseAccepts backupCompressChoices "0" = true ∧
    List.elem "0" ["none", "gzip", "lzo", "zstd"] = false ∧
    argparseAccepts backupCompressChoices "none" = false :=
  ⟨rfl, rfl, rfl⟩

/-- Claim C8 (amended): the backup mode accepted at the command surface is
an element of `{snapshot, suspend, stop}` and the compression method an
element of `{0, gzip, lzo, zstd}` (`"0"` denoting no compression, not the
word `none`); no other value is accepted, and every accepted pair is
carried verbatim into the variable mapping under `mode` and `compress`. -/
theorem C8_backup_mode_compress (m c op : String)
    (hm : argparseAccepts backupModeChoices m = true)
    (hc : argparseAccepts backupCompressChoices c = true)
    (hop : List.elem op backupValidOps = true) (vid bid st nd : Val) :
    (m = "snapshot" ∨ m = "suspend" ∨ m = "stop") ∧
    (c = "0" ∨ c = "gzip" ∨ c = "lzo" ∨ c = "zstd") ∧
    assocLookup (stagedVars (backupManagement op vid bid st nd
      (backupCliKwargs Option.none Option.none Option.none Option.none
        Option.none (Option.some m) (Option.some c)))) "mode" =
      Option.some (Val.str m) ∧
    assocLookup (stagedVars (backupManagement op vid bid st nd
      (backupCliKwargs Option.none Option.none Option.none Option.none
        Option.none (Option.some m) (Option.some c)))) "compress" =
      Option.some (Val.str c) := by
  simp only [argparseAccepts, backupModeChoices, backupCompressChoices,
    List.elem_eq_mem, decide_eq_true_eq, List.mem_cons,
    List.not_mem_nil, or_false] at hm hc
  have hmne : m ≠ "" := by
    rcases hm with rfl | rfl | rfl <;> decide
  have hcne : c ≠ "" := by
    rcases hc with rfl | rfl | rfl | rfl <;> decide
  have hkw : backupCliKwargs Option.none Option.none Option.none Option.none
      Option.none (Option.some m) (Option.some c) =
      [("mode", Val.str m), ("compress", Val.str c)] := by
    unfold backupCliKwargs
    simp only [List.foldl_cons, List.foldl_nil]
    rw [if_pos hmne, if_pos hcne]
    rfl
  refine ⟨hm, hc, ?_, ?_⟩
  · simp only [backupManagement, hop, if_true, stagedVars, hkw]
    exact assocLookup_dictUpdate_mem _ _ (by simp [dictKeys, hmne, hcne])
      (List.mem_cons_self _ _)
  · simp only [backupManagement, hop, if_true, stagedVars, hkw]
    exact assocLookup_dictUpdate_mem _ _ (by simp [dictKeys, hmne, hcne])
      (List.mem_cons_of_mem _ (List.mem_cons_self _ _))

/-- Witness for claim C8: the accepted pair (`suspend`, `zstd`) reaches the
variable mapping unchanged. -/
theorem C8_witness :
    assocLookup (stagedVars (backupManagement "create" (Val.str "100")
      Val.none Val.none Val.none
      (backupCliKwargs Option.none Option.none Option.none Option.none
        Option.none (Option.some "suspend") (Option.some "zstd")))) "mode" =
      Option.some (Val.str "suspend") ∧
    assocLookup (stagedVars (backupManagement "create" (Val.str "100")
      Val.none Val.none Val.none
      (backupCliKwargs Option.none Option.none Option.none Option.none
        Option.none (Option.some "suspend") (Option.some "zstd"))))
      "compress" = Option.some (Val.str "zstd") := by
  have h := C8_backup_mode_compress "suspend" "zstd" "create" rfl rfl rfl
    (Val.str "100") Val.none Val.none Val.none
  exact ⟨h.2.2.1, h.2.2.2⟩

/-! ## Claim C4 -/

theorem scan_keys_aux (dir : String) (files : List String) :
    ∀ (acc : List (String × String)),
      (dictKeys acc ++ (files.filter recognizedExt).map derivedName).Nodup →
      dictKeys (files.foldl (scanStep dir) acc) =
        dictKeys acc ++ (files.filter recognizedExt).map derivedName := by
  induction files with
  | nil =>
    intro acc _
    simp
  | cons f fs ih =>
    intro acc h
    by_cases hf : recognizedExt f = true
    · rw [List.filter_cons_of_pos hf] at h ⊢
      simp only [List.map_cons] at h ⊢
      have hsplit :
          (dictKeys acc ++ derivedName f ::
            (fs.filter recognizedExt).map derivedName) =
          ((dictKeys acc ++ [derivedName f]) ++
            (fs.filter recognizedExt).map derivedName) := by
        simp
      rw [hsplit] at h
      have hnotin : derivedName f ∉ dictKeys acc := by
        intro hmem
        have hx : (dictKeys acc ++ [derivedName f]).Nodup :=
          (List.nodup_append.mp h).1
        rcases List.nodup_append.mp hx with ⟨_, _, hdisj⟩
        exact hdisj hmem (by simp)
      have hstep : List.foldl (scanStep dir) acc (f :: fs) =
          List.foldl (scanStep dir)
            (assocSet acc (derivedName f) (dir ++ "/" ++ f)) fs := by
        simp [scanStep, hf]
      rw [hstep, ih _ (by
        rw [dictKeys_assocSet_not_mem _ _ hnotin]
        exact h),
        dictKeys_assocSet_not_mem _ _ hnotin]
      simp
    · have hf2 : recognizedExt f = false := by
        simpa using hf
      rw [List.filter_cons_of_neg (by simp [hf2])] at h ⊢
      have hstep : List.foldl (scanStep dir) acc (f :: fs) =
          List.foldl (scanStep dir) acc fs := by
        simp [scanStep, hf2]
      rw [hstep]
      exact ih _ h

/-- Claim C4, counterexample: two recognized files may collapse to one
registry entry (`setup.yml` and `setup.yaml` both derive `setup`), and the
derived name is a replace-all, not an extension strip: `a.yml.yml` is
registered as `a`, not `a.yml`. -/
theorem C4_counterexample :
    (list_playbooks (scanPlaybooks "pb" ["setup.yml", "setup.yaml"])).length
      = 1 ∧
    (["setup.yml", "setup.yaml"].filter recognizedExt).length = 2 ∧
    list_playbooks (scanPlaybooks "pb" ["a.yml.yml"]) = ["a"] ∧
    "a" ≠ "a.yml" :=
  ⟨rfl, rfl, rfl, by decide⟩

/-- Claim C4 (amended): for every directory listing whose recognized files
(`.yml`/`.yaml` suffix) have pairwise distinct derived names — the file
name with every occurrence of `.yml` and then `.yaml` removed, which
coincides with extension stripping when the stem contains neither
substring — the scan registers exactly those derived names, in scan order,
so `list()` has exactly N entries for N recognized files; files without a
recognized extension contribute no entry. -/
theorem C4_registry_scan (dir : String) (files : List String)
    (h : ((files.filter recognizedExt).map derivedName).Nodup) :
    list_playbooks (scanPlaybooks dir files) =
      (files.filter recognizedExt).map derivedName ∧
    (list_playbooks (scanPlaybooks dir files)).length =
      (files.filter recognizedExt).length := by
  have hk := scan_keys_aux dir files [] (by simpa using h)
  have h1 : list_playbooks (scanPlaybooks dir files) =
      (files.filter recognizedExt).map derivedName := by
    simpa [list_playbooks, scanPlaybooks] using hk
  exact ⟨h1, by rw [h1, List.length_map]⟩

/-- Witness for claim C4: the spec scenario — `setup.yml`, `teardown.yaml`
and `README.md` yield exactly the names `setup` and `teardown`. -/
theorem C4_witness :
    list_playbooks (scanPlaybooks "playbooks"
      ["setup.yml", "teardown.yaml", "README.md"]) =
      ["setup", "teardown"] ∧
    (list_playbooks (scanPlaybooks "playbooks"
      ["setup.yml", "teardown.yaml", "README.md"])).length = 2 := by
  have h := C4_registry_scan "playbooks"
    ["setup.yml", "teardown.yaml", "README.md"] (by decide)
  exact ⟨h.1.trans (by rfl), h.2.trans (by rfl)⟩

/-! ## JSON round trip: character-level lemmas -/

theorem char_valid_of_lt {n : Nat} (h : n < 55296) : n.isValidChar :=
  Or.inl h

theorem char_toNat_ofNat {n : Nat} (h : n.isValidChar) :
    (Char.ofNat n).toNat = n := by
  rw [Char.ofNat, dif_pos h]
  rfl

theorem hexVal_hexDig {d : Nat} (h : d < 16) :
    hexVal (hexDig d) = Option.some d := by
  interval_cases d <;> decide

theorem hex4_value {n : Nat} (h : n < 65536) :
    4096 * (n / 4096 % 16) + 256 * (n / 256 % 16) + 16 * (n / 16 % 16) +
      n % 16 = n := by
  omega

theorem skipWs_cons {c : Char} (h : isWsCh c = false) (s : List Char) :
    skipWs (c :: s) = c :: s := by
  simp [skipWs, List.dropWhile_cons, h]

theorem takeWhile_append_split {p : Char → Bool} (xs rest : List Char)
    (hxs : ∀ c ∈ xs, p c = true)
    (hr : ∀ c, rest.head? = Option.some c → p c = false) :
    (xs ++ rest).takeWhile p = xs ∧ (xs ++ rest).dropWhile p = rest := by
  induction xs with
  | nil =>
    simp only [List.nil_append]
    cases rest with
    | nil => simp
    | cons r rs =>
      have hpr := hr r rfl
      simp [List.takeWhile_cons, List.dropWhile_cons, hpr]
  | cons x xs ih =>
    have hx := hxs x (by simp)
    have ih2 := ih (fun c hc => hxs c (by simp [hc]))
    simp [List.takeWhile_cons, List.dropWhile_cons, hx, ih2.1, ih2.2]

theorem digit_not_special {c : Char} (hc : isDigitCh c = true) :
    c ≠ '-' ∧ c ≠ 'n' ∧ c ≠ 't' ∧ c ≠ 'f' ∧ c ≠ '"' ∧ c ≠ '[' ∧ c ≠ '{' ∧
      c ≠ ']' ∧ c ≠ '}' ∧ c ≠ ',' ∧ isWsCh c = false := by
  simp only [isDigitCh, Bool.and_eq_true, decide_eq_true_eq] at hc
  refine ⟨?_, ?_, ?_, ?_, ?_, ?_, ?_, ?_, ?_, ?_, ?_⟩
  · intro h1; rw [h1] at hc; exact absurd hc (by decide)
  · intro h1; rw [h1] at hc; exact absurd hc (by decide)
  · intro h1; rw [h1] at hc; exact absurd hc (by decide)
  · intro h1; rw [h1] at hc; exact absurd hc (by decide)
  · intro h1; rw [h1] at hc; exact absurd hc (by decide)
  · intro h1; rw [h1] at hc; exact absurd hc (by decide)
  · intro h1; rw [h1] at hc; exact absurd hc (by decide)
  · intro h1; rw [h1] at hc; exact absurd hc (by decide)
  · intro h1; rw [h1] at hc; exact absurd hc (by decide)
  · intro h1; rw [h1] at hc; exact absurd hc (by decide)
  · rcases hw : decide (c = ' ') with _ | _
    · rcases hn : decide (c = '\n') with _ | _
      · rcases ht : decide (c = '\t') with _ | _
        · rcases hrr : decide (c = '\x0d') with _ | _
          · simp [isWsCh, hw, hn, ht, hrr]
          · have h1 : c = '\x0d' := of_decide_eq_true hrr
            rw [h1] at hc; exact absurd hc (by decide)
        · have h1 : c = '\t' := of_decide_eq_true ht
          rw [h1] at hc; exact absurd hc (by decide)
      · have h1 : c = '\n' := of_decide_eq_true hn
        rw [h1] at hc; exact absurd hc (by decide)
    · have h1 : c = ' ' := of_decide_eq_true hw
      rw [h1] at hc; exact absurd hc (by decide)

/-! ## JSON round trip: integer serialization -/

theorem natToCharsAux_digits :
    ∀ (fuel n : Nat) (acc : List Char), 0 < n → n < fuel →
      natToCharsAux fuel n acc =
        ((Nat.digits 10 n).reverse.map (fun d => Char.ofNat (48 + d))) ++
          acc := by
  intro fuel
  induction fuel with
  | zero =>
    intro n acc h1 h2
    omega
  | succ fuel ih =>
    intro n acc hpos hlt
    by_cases h10 : n < 10
    · simp only [natToCharsAux, if_pos h10]
      rw [Nat.digits_def' (by norm_num : (1 : ℕ) < 10) hpos,
        Nat.div_eq_of_lt h10, Nat.mod_eq_of_lt h10]
      simp
    · simp only [natToCharsAux, if_neg h10]
      have hdivpos : 0 < n / 10 := Nat.div_pos (by omega) (by omega)
      have hdivlt : n / 10 < fuel := by
        have := Nat.div_lt_self (by omega : 0 < n) (by omega : (1 : ℕ) < 10)
        omega
      rw [ih (n / 10) _ hdivpos hdivlt,
        Nat.digits_def' (by norm_num : (1 : ℕ) < 10) hpos]
      simp

theorem natToChars_pos_digits {n : Nat} (hpos : 0 < n) :
    natToChars n =
      (Nat.digits 10 n).reverse.map (fun d => Char.ofNat (48 + d)) := by
  have h := natToCharsAux_digits (n + 1) n [] hpos (by omega)
  simpa [natToChars] using h

theorem isDigitCh_digitChar {d : Nat} (h : d < 10) :
    isDigitCh (Char.ofNat (48 + d)) = true := by
  have hv : (48 + d).isValidChar := char_valid_of_lt (by omega)
  simp only [isDigitCh, char_toNat_ofNat hv, Bool.and_eq_true,
    decide_eq_true_eq]
  omega

theorem natToChars_all_digits (n : Nat) :
    ∀ c ∈ natToChars n, isDigitCh c = true := by
  rcases Nat.eq_zero_or_pos n with rfl | hpos
  · intro c hc
    have : c = Char.ofNat 48 := by simpa [natToChars, natToCharsAux] using hc
    subst this
    decide
  · rw [natToChars_pos_digits hpos]
    intro c hc
    rcases List.mem_map.mp hc with ⟨d, hd, rfl⟩
    have hd10 : d < 10 :=
      Nat.digits_lt_base (by norm_num) (List.mem_reverse.mp hd)
    exact isDigitCh_digitChar hd10

theorem natToChars_ne_nil (n : Nat) : natToChars n ≠ [] := by
  rcases Nat.eq_zero_or_pos n with rfl | hpos
  · decide
  · rw [natToChars_pos_digits hpos]
    simp only [ne_eq, List.map_eq_nil_iff, List.reverse_eq_nil_iff,
      Nat.digits_eq_nil_iff_eq_zero]
    omega

theorem foldr_digits_val (L : List Nat) (hL : ∀ d ∈ L, d < 10) :
    (L.map (fun d => Char.ofNat (48 + d))).foldr
      (fun c a => 10 * a + (c.toNat - 48)) 0 = Nat.ofDigits 10 L := by
  induction L with
  | nil => simp [Nat.ofDigits_nil]
  | cons d L ih =>
    have hd : d < 10 := hL d (by simp)
    have hv : (48 + d).isValidChar := char_valid_of_lt (by omega)
    have ihr := ih (fun x hx => hL x (by simp [hx]))
    simp only [List.map_cons, List.foldr_cons, ihr, char_toNat_ofNat hv,
      Nat.ofDigits_cons]
    omega

theorem natToChars_value (n : Nat) :
    (natToChars n).foldl (fun a c => 10 * a + (c.toNat - 48)) 0 = n := by
  rcases Nat.eq_zero_or_pos n with rfl | hpos
  · decide
  · rw [natToChars_pos_digits hpos]
    have hrev : (Nat.digits 10 n).reverse.map (fun d => Char.ofNat (48 + d)) =
        ((Nat.digits 10 n).map (fun d => Char.ofNat (48 + d))).reverse := by
      simp
    rw [hrev, List.foldl_reverse]
    have hval := foldr_digits_val (Nat.digits 10 n)
      (fun d hd => Nat.digits_lt_base (by norm_num) hd)
    exact hval.trans (Nat.ofDigits_digits 10 n)

theorem parseNatTok_natToChars (n : Nat) (rest : List Char)
    (hr : ∀ c, rest.head? = Option.some c → isDigitCh c = false) :
    parseNatTok (natToChars n ++ rest) = Option.some (n, rest) := by
  obtain ⟨ht, hd⟩ := takeWhile_append_split (natToChars n) rest
    (natToChars_all_digits n) hr
  unfold parseNatTok
  simp only [ht, hd]
  rw [if_neg (natToChars_ne_nil n), natToChars_value]

theorem parseIntTok_neg_branch (l : List Char) :
    parseIntTok ('-' :: l) =
      (parseNatTok l).map (fun p => (-(p.1 : Int), p.2)) := rfl

theorem parseIntTok_intToChars (i : Int) (rest : List Char)
    (hr : ∀ c, rest.head? = Option.some c → isDigitCh c = false) :
    parseIntTok (intToChars i ++ rest) = Option.some (i, rest) := by
  by_cases hneg : i < 0
  · rw [intToChars, if_pos hneg]
    show parseIntTok ('-' :: (natToChars (-i).toNat ++ rest)) = _
    rw [parseIntTok_neg_branch, parseNatTok_natToChars _ _ hr]
    have htn : (((-i).toNat : Int)) = -i := Int.toNat_of_nonneg (by omega)
    simp [htn]
  · rw [intToChars, if_neg hneg]
    obtain ⟨c, cs, hcs⟩ : ∃ c cs, natToChars i.toNat = c :: cs := by
      cases hx : natToChars i.toNat with
      | nil => exact absurd hx (natToChars_ne_nil _)
      | cons c cs => exact ⟨c, cs, rfl⟩
    have hcd : isDigitCh c = true :=
      natToChars_all_digits i.toNat c (by rw [hcs]; simp)
    have hcne : c ≠ '-' := (digit_not_special hcd).1
    rw [hcs]
    unfold parseIntTok
    split
    · rename_i heq
      exact absurd (List.head_eq_of_cons_eq heq) hcne
    · rw [← hcs, parseNatTok_natToChars _ _ hr]
      simp [Int.toNat_of_nonneg (by omega : (0 : Int) ≤ i)]

/-! ## JSON round trip: string literals -/

theorem parseStringLit_quote (rest : List Char) :
    parseStringLit ('"' :: rest) = Option.some ([], rest) := by
  conv_lhs => unfold parseStringLit
  rfl

theorem parseStringLit_plain {c : Char} (h1 : c ≠ '"') (h2 : c ≠ '\\')
    (s : List Char) :
    parseStringLit (c :: s) =
      (parseStringLit s).map (fun p => (c :: p.1, p.2)) := by
  conv_lhs => unfold parseStringLit
  rw [if_neg h1, if_neg h2]

theorem parseStringLit_esc_quote (s : List Char) :
    parseStringLit ('\\' :: '"' :: s) =
      (parseStringLit s).map (fun p => ('"' :: p.1, p.2)) := by
  conv_lhs => unfold parseStringLit
  rfl

theorem parseStringLit_esc_backslash (s : List Char) :
    parseStringLit ('\\' :: '\\' :: s) =
      (parseStringLit s).map (fun p => ('\\' :: p.1, p.2)) := by
  conv_lhs => unfold parseStringLit
  rfl

theorem parseStringLit_esc_n (s : List Char) :
    parseStringLit ('\\' :: 'n' :: s) =
      (parseStringLit s).map (fun p => ('\n' :: p.1, p.2)) := by
  conv_lhs => unfold parseStringLit
  rfl

theorem parseStringLit_esc_t (s : List Char) :
    parseStringLit ('\\' :: 't' :: s) =
      (parseStringLit s).map (fun p => ('\t' :: p.1, p.2)) := by
  conv_lhs => unfold parseStringLit
  rfl

theorem parseStringLit_esc_r (s : List Char) :
    parseStringLit ('\\' :: 'r' :: s) =
      (parseStringLit s).map (fun p => ('\x0d' :: p.1, p.2)) := by
  conv_lhs => unfold parseStringLit
  rfl

theorem parseStringLit_esc_b (s : List Char) :
    parseStringLit ('\\' :: 'b' :: s) =
      (parseStringLit s).map (fun p => (Char.ofNat 8 :: p.1, p.2)) := by
  conv_lhs => unfold parseStringLit
  rfl

theorem parseStringLit_esc_f (s : List Char) :
    parseStringLit ('\\' :: 'f' :: s) =
      (parseStringLit s).map (fun p => (Char.ofNat 12 :: p.1, p.2)) := by
  conv_lhs => unfold parseStringLit
  rfl

theorem parseStringLit_unicode (h1 h2 h3 h4 : Char) {v1 v2 v3 v4 : Nat}
    (e1 : hexVal h1 = Option.some v1) (e2 : hexVal h2 = Option.some v2)
    (e3 : hexVal h3 = Option.some v3) (e4 : hexVal h4 = Option.some v4)
    (s : List Char) :
    parseStringLit ('\\' :: 'u' :: h1 :: h2 :: h3 :: h4 :: s) =
      (parseStringLit s).map (fun p =>
        (Char.ofNat (4096 * v1 + 256 * v2 + 16 * v3 + v4) :: p.1, p.2)) := by
  conv_lhs => unfold parseStringLit
  show (match hexVal h1, hexVal h2, hexVal h3, hexVal h4 with
    | Option.some v1, Option.some v2, Option.some v3, Option.some v4 =>
      (parseStringLit s).map
        (fun p : List Char × List Char =>
          (Char.ofNat (4096 * v1 + 256 * v2 + 16 * v3 + v4) :: p.1, p.2))
    | _, _, _, _ => Option.none) = _
  rw [e1, e2, e3, e4]

theorem parseStringLit_encode :
    ∀ (cs : List Char), (∀ c ∈ cs, c.toNat < 65536) → ∀ (rest : List Char),
      parseStringLit (encodeChars cs ++ '"' :: rest) =
        Option.some (cs, rest) := by
  intro cs
  induction cs with
  | nil =>
    intro _ rest
    exact parseStringLit_quote rest
  | cons c cs ih =>
    intro hb rest
    have hc : c.toNat < 65536 := hb c (by simp)
    have ihr := ih (fun x hx => hb x (by simp [hx])) rest
    show parseStringLit ((escapeChar c ++ encodeChars cs) ++ '"' :: rest) = _
    rw [List.append_assoc]
    simp only [escapeChar]
    by_cases h1 : c = '"'
    · rw [if_pos h1, List.cons_append, List.cons_append, List.nil_append,
        parseStringLit_esc_quote, ihr, h1]
      rfl
    · rw [if_neg h1]
      by_cases h2 : c = '\\'
      · rw [if_pos h2, List.cons_append, List.cons_append, List.nil_append,
          parseStringLit_esc_backslash, ihr, h2]
        rfl
      · rw [if_neg h2]
        by_cases h3 : c = '\n'
        · rw [if_pos h3, List.cons_append, List.cons_append, List.nil_append,
            parseStringLit_esc_n, ihr, h3]
          rfl
        · rw [if_neg h3]
          by_cases h4 : c = '\t'
          · rw [if_pos h4, List.cons_append, List.cons_append,
              List.nil_append, parseStringLit_esc_t, ihr, h4]
            rfl
          · rw [if_neg h4]
            by_cases h5 : c = '\x0d'
            · rw [if_pos h5, List.cons_append, List.cons_append,
                List.nil_append, parseStringLit_esc_r, ihr, h5]
              rfl
            · rw [if_neg h5]
              by_cases h6 : c.toNat = 8
              · rw [if_pos h6, List.cons_append, List.cons_append,
                  List.nil_append, parseStringLit_esc_b, ihr, ← h6,
                  Char.ofNat_toNat]
                rfl
              · rw [if_neg h6]
                by_cases h7 : c.toNat = 12
                · rw [if_pos h7, List.cons_append, List.cons_append,
                    List.nil_append, parseStringLit_esc_f, ihr, ← h7,
                    Char.ofNat_toNat]
                  rfl
                · rw [if_neg h7]
                  by_cases h8 : 32 ≤ c.toNat ∧ c.toNat ≤ 126
                  · rw [if_pos h8, List.cons_append, List.nil_append,
                      parseStringLit_plain h1 h2, ihr]
                    rfl
                  · rw [if_neg h8, if_pos hc, List.cons_append,
                      List.cons_append]
                    simp only [toHex4]
                    rw [List.cons_append, List.cons_append, List.cons_append,
                      List.cons_append, List.nil_append,
                      parseStringLit_unicode _ _ _ _
                        (hexVal_hexDig (by omega)) (hexVal_hexDig (by omega))
                        (hexVal_hexDig (by omega)) (hexVal_hexDig (by omega)),
                      ihr]
                    rw [hex4_value hc, Char.ofNat_toNat]
                    rfl

/-! ## JSON round trip: head shapes and fuel -/

theorem skipWs_space (t : List Char) : skipWs (' ' :: t) = skipWs t := by
  simp [skipWs, List.dropWhile_cons, isWsCh]

theorem intToChars_head (i : Int) :
    ∃ c cs, intToChars i = c :: cs ∧ isWsCh c = false ∧ c ≠ 'n' ∧ c ≠ 't' ∧
      c ≠ 'f' ∧ c ≠ '"' ∧ c ≠ '[' ∧ c ≠ '{' ∧ c ≠ ']' ∧ c ≠ '}' ∧ c ≠ ',' ∧
      (decide (c = '-') || isDigitCh c) = true := by
  by_cases hneg : i < 0
  · refine ⟨'-', natToChars (-i).toNat, ?_, ?_, ?_, ?_, ?_, ?_, ?_, ?_, ?_,
      ?_, ?_, ?_⟩
    · rw [intToChars, if_pos hneg]
    all_goals decide
  · obtain ⟨c, cs, hcs⟩ : ∃ c cs, natToChars i.toNat = c :: cs := by
      cases hx : natToChars i.toNat with
      | nil => exact absurd hx (natToChars_ne_nil _)
      | cons c cs => exact ⟨c, cs, rfl⟩
    have hcd : isDigitCh c = true :=
      natToChars_all_digits i.toNat c (by rw [hcs]; simp)
    obtain ⟨q1, q2, q3, q4, q5, q6, q7, q8, q9, q10, q11⟩ :=
      digit_not_special hcd
    exact ⟨c, cs, by rw [intToChars, if_neg hneg, hcs], q11, q2, q3, q4, q5,
      q6, q7, q8, q9, q10, by simp [hcd]⟩

theorem dumpsV_head (v : Val) :
    ∃ c cs, dumpsV v = c :: cs ∧ isWsCh c = false ∧ c ≠ ']' ∧ c ≠ '}' ∧
      c ≠ ',' := by
  cases v with
  | none => exact ⟨'n', _, rfl, by decide, by decide, by decide, by decide⟩
  | bool b =>
    cases b with
    | true => exact ⟨'t', _, rfl, by decide, by decide, by decide, by decide⟩
    | false => exact ⟨'f', _, rfl, by decide, by decide, by decide, by decide⟩
  | int i =>
    obtain ⟨c, cs, hcs, hws, _, _, _, _, _, _, hb1, hb2, hb3, _⟩ :=
      intToChars_head i
    exact ⟨c, cs, hcs, hws, hb1, hb2, hb3⟩
  | str s =>
    exact ⟨'"', _, rfl, by decide, by decide, by decide, by decide⟩
  | list l =>
    cases l with
    | nil => exact ⟨'[', _, rfl, by decide, by decide, by decide, by decide⟩
    | cons v vs =>
      exact ⟨'[', _, rfl, by decide, by decide, by decide, by decide⟩
  | dict d =>
    cases d with
    | nil => exact ⟨'{', _, rfl, by decide, by decide, by decide, by decide⟩
    | cons p ps =>
      exact ⟨'{', _, rfl, by decide, by decide, by decide, by decide⟩

theorem needV_pos (v : Val) : 1 ≤ needV v := by
  cases v with
  | none => simp [needV]
  | bool b => simp [needV]
  | int i => simp [needV]
  | str s => simp [needV]
  | list l =>
    cases l with
    | nil => simp [needV]
    | cons v vs => simp [needV]
  | dict d =>
    cases d with
    | nil => simp [needV]
    | cons p ps => simp [needV]

theorem parseV_cons (fuel : Nat) (c : Char) (l : List Char)
    (hws : isWsCh c = false) :
    parseV (fuel + 1) (c :: l) =
      (if c = 'n' then
        (expectChars ['u', 'l', 'l'] l).map (fun r2 => (Val.none, r2))
      else if c = 't' then
        (expectChars ['r', 'u', 'e'] l).map (fun r2 => (Val.bool true, r2))
      else if c = 'f' then
        (expectChars ['a', 'l', 's', 'e'] l).map
          (fun r2 => (Val.bool false, r2))
      else if c = '"' then
        (parseStringLit l).map (fun p => (Val.str (String.mk p.1), p.2))
      else if c = '[' then
        if (skipWs l).head? = Option.some ']' then
          Option.some (Val.list [], (skipWs l).tail)
        else (parseItems fuel (skipWs l)).map (fun p => (Val.list p.1, p.2))
      else if c = '{' then
        if (skipWs l).head? = Option.some '}' then
          Option.some (Val.dict [], (skipWs l).tail)
        else (parseMembers fuel (skipWs l)).map (fun p => (Val.dict p.1, p.2))
      else if c = '-' || isDigitCh c then
        (parseIntTok (c :: l)).map (fun p => (Val.int p.1, p.2))
      else Option.none) := by
  conv_lhs => unfold parseV
  rw [skipWs_cons hws]

theorem bmpChars_mem {cs : List Char} (h : bmpChars cs = true) :
    ∀ c ∈ cs, c.toNat < 65536 := by
  simpa [bmpChars, List.all_eq_true, decide_eq_true_eq] using h

theorem skipWs_dumpsV (v : Val) (t : List Char) :
    skipWs (dumpsV v ++ t) = dumpsV v ++ t := by
  obtain ⟨c, cs, hcs, hws, _, _, _⟩ := dumpsV_head v
  rw [hcs, List.cons_append, skipWs_cons hws]

theorem head_dumpsV_append (v : Val) (t : List Char) :
    ∃ c, (dumpsV v ++ t).head? = Option.some c ∧ isWsCh c = false ∧
      c ≠ ']' ∧ c ≠ '}' ∧ c ≠ ',' := by
  obtain ⟨c, cs, hcs, hws, h1, h2, h3⟩ := dumpsV_head v
  exact ⟨c, by rw [hcs, List.cons_append]; rfl, hws, h1, h2, h3⟩

theorem ite_head_pos {α : Type} {c : Char} {t : List Char} {x y : α} :
    (if (c :: t).head? = Option.some c then x else y) = x := by
  rw [if_pos (show (c :: t).head? = Option.some c from rfl)]

theorem ite_head_neg {α : Type} (c d : Char) (hne : c ≠ d) {t : List Char}
    {x y : α} :
    (if (c :: t).head? = Option.some d then x else y) = y := by
  rw [if_neg]
  simp [hne]

mutual

theorem rt_V (fuel : Nat) (v : Val) (rest : List Char)
    (hf : needV v ≤ fuel) (hb : bmpV v = true)
    (hr : ∀ c, rest.head? = Option.some c → isDigitCh c = false) :
    parseV fuel (dumpsV v ++ rest) = Option.some (v, rest) := by
  cases fuel with
  | zero =>
    have := needV_pos v
    omega
  | succ n =>
    cases v with
    | none =>
      rw [show dumpsV Val.none ++ rest = 'n' :: ('u' :: 'l' :: 'l' :: rest)
          from rfl,
        parseV_cons n 'n' _ (by decide)]
      rfl
    | bool b =>
      cases b with
      | true =>
        rw [show dumpsV (Val.bool true) ++ rest =
            't' :: ('r' :: 'u' :: 'e' :: rest) from rfl,
          parseV_cons n 't' _ (by decide)]
        rfl
      | false =>
        rw [show dumpsV (Val.bool false) ++ rest =
            'f' :: ('a' :: 'l' :: 's' :: 'e' :: rest) from rfl,
          parseV_cons n 'f' _ (by decide)]
        rfl
    | int i =>
      obtain ⟨c, cs, hcs, hws, hn, ht, hfc, hq, hbr, hbc, _, _, _, hdig⟩ :=
        intToChars_head i
      rw [show dumpsV (Val.int i) = intToChars i from rfl, hcs,
        List.cons_append, parseV_cons n c _ hws, if_neg hn, if_neg ht,
        if_neg hfc, if_neg hq, if_neg hbr, if_neg hbc, if_pos hdig,
        ← List.cons_append, ← hcs, parseIntTok_intToChars i rest hr]
      rfl
    | str s =>
      have harg : dumpsV (Val.str s) ++ rest =
          '"' :: (encodeChars s.data ++ '"' :: rest) := by
        simp [dumpsV, encodeStringLit]
      rw [harg, parseV_cons n '"' _ (by decide),
        if_neg (by decide : ¬('"' = 'n')),
        if_neg (by decide : ¬('"' = 't')),
        if_neg (by decide : ¬('"' = 'f')), if_pos rfl,
        parseStringLit_encode s.data (bmpChars_mem (by simpa [bmpV] using hb))
          rest]
      rfl
    | list l =>
      cases l with
      | nil =>
        rw [show dumpsV (Val.list []) ++ rest = '[' :: (']' :: rest)
            from rfl,
          parseV_cons n '[' _ (by decide),
          if_neg (by decide : ¬('[' = 'n')),
          if_neg (by decide : ¬('[' = 't')),
          if_neg (by decide : ¬('[' = 'f')),
          if_neg (by decide : ¬('[' = '"')), if_pos rfl,
          skipWs_cons (by decide : isWsCh ']' = false), ite_head_pos]
        rfl
      | cons v vs =>
        have harg : dumpsV (Val.list (v :: vs)) ++ rest =
            '[' :: (dumpsV v ++ (dumpsItems vs ++ ']' :: rest)) := by
          simp [dumpsV]
        have hfl : needItems (v :: vs) ≤ n := by
          simp only [needV] at hf
          omega
        have hbl : bmpItems (v :: vs) = true := by
          simpa [bmpV] using hb
        obtain ⟨c, hhead, hws, hne1, _, _⟩ :=
          head_dumpsV_append v (dumpsItems vs ++ ']' :: rest)
        rw [harg, parseV_cons n '[' _ (by decide),
          if_neg (by decide : ¬('[' = 'n')),
          if_neg (by decide : ¬('[' = 't')),
          if_neg (by decide : ¬('[' = 'f')),
          if_neg (by decide : ¬('[' = '"')), if_pos rfl,
          skipWs_dumpsV v (dumpsItems vs ++ ']' :: rest),
          if_neg (by rw [hhead]; simp [hne1]),
          rt_items n v vs rest hfl hbl]
        rfl
    | dict d =>
      cases d with
      | nil =>
        rw [show dumpsV (Val.dict []) ++ rest = '{' :: ('}' :: rest)
            from rfl,
          parseV_cons n '{' _ (by decide),
          if_neg (by decide : ¬('{' = 'n')),
          if_neg (by decide : ¬('{' = 't')),
          if_neg (by decide : ¬('{' = 'f')),
          if_neg (by decide : ¬('{' = '"')),
          if_neg (by decide : ¬('{' = '[')), if_pos rfl,
          skipWs_cons (by decide : isWsCh '}' = false), ite_head_pos]
        rfl
      | cons p ps =>
        have harg : dumpsV (Val.dict (p :: ps)) ++ rest =
            '{' :: (encodeStringLit p.1 ++ ':' :: ' ' ::
              (dumpsV p.2 ++ (dumpsPairs ps ++ '}' :: rest))) := by
          simp [dumpsV]
        have hfd : needPairs (p :: ps) ≤ n := by
          simp only [needV] at hf
          omega
        have hbd : bmpPairs (p :: ps) = true := by
          simpa [bmpV] using hb
        have hquote : (encodeStringLit p.1 ++ ':' :: ' ' ::
            (dumpsV p.2 ++ (dumpsPairs ps ++ '}' :: rest))).head? =
            Option.some '"' := by
          simp [encodeStringLit]
        rw [harg, parseV_cons n '{' _ (by decide),
          if_neg (by decide : ¬('{' = 'n')),
          if_neg (by decide : ¬('{' = 't')),
          if_neg (by decide : ¬('{' = 'f')),
          if_neg (by decide : ¬('{' = '"')),
          if_neg (by decide : ¬('{' = '[')), if_pos rfl,
          show skipWs (encodeStringLit p.1 ++ ':' :: ' ' ::
              (dumpsV p.2 ++ (dumpsPairs ps ++ '}' :: rest))) =
            encodeStringLit p.1 ++ ':' :: ' ' ::
              (dumpsV p.2 ++ (dumpsPairs ps ++ '}' :: rest)) by
            rw [show encodeStringLit p.1 ++ ':' :: ' ' ::
                (dumpsV p.2 ++ (dumpsPairs ps ++ '}' :: rest)) =
                '"' :: (encodeChars p.1.data ++ '"' :: ':' :: ' ' ::
                  (dumpsV p.2 ++ (dumpsPairs ps ++ '}' :: rest))) by
              simp [encodeStringLit]]
            exact skipWs_cons (by decide) _,
          if_neg (by rw [hquote]; decide),
          rt_members n p ps rest hfd hbd]
        rfl

theorem rt_items (fuel : Nat) (v : Val) (vs : List Val) (rest : List Char)
    (hf : needItems (v :: vs) ≤ fuel) (hb : bmpItems (v :: vs) = true) :
    parseItems fuel (dumpsV v ++ (dumpsItems vs ++ ']' :: rest)) =
      Option.some (v :: vs, rest) := by
  cases fuel with
  | zero =>
    simp only [needItems] at hf
    omega
  | succ n =>
    have hfv : needV v ≤ n := by
      simp only [needItems] at hf
      have := Nat.le_max_left (needV v) (needItems vs)
      omega
    have hfvs : needItems vs ≤ n := by
      simp only [needItems] at hf
      have := Nat.le_max_right (needV v) (needItems vs)
      omega
    have hbv : bmpV v = true := by
      simp only [bmpItems, Bool.and_eq_true] at hb
      exact hb.1
    have hbvs : bmpItems vs = true := by
      simp only [bmpItems, Bool.and_eq_true] at hb
      exact hb.2
    have hX : ∀ c, (dumpsItems vs ++ ']' :: rest).head? = Option.some c →
        isDigitCh c = false := by
      cases vs with
      | nil =>
        intro c hc
        simp only [dumpsItems, List.nil_append, List.head?_cons,
          Option.some.injEq] at hc
        rw [← hc]
        decide
      | cons v2 vs2 =>
        intro c hc
        simp only [dumpsItems, List.cons_append, List.head?_cons,
          Option.some.injEq] at hc
        rw [← hc]
        decide
    conv_lhs => unfold parseItems
    rw [rt_V n v (dumpsItems vs ++ ']' :: rest) hfv hbv hX]
    show (if (skipWs (dumpsItems vs ++ ']' :: rest)).head? =
          Option.some ',' then
        (parseItems n
          (skipWs (skipWs (dumpsItems vs ++ ']' :: rest)).tail)).map
          (fun p => (v :: p.1, p.2))
      else if (skipWs (dumpsItems vs ++ ']' :: rest)).head? =
          Option.some ']' then
        Option.some ([v], (skipWs (dumpsItems vs ++ ']' :: rest)).tail)
      else Option.none) = Option.some (v :: vs, rest)
    cases vs with
    | nil =>
      rw [show dumpsItems [] ++ ']' :: rest = ']' :: rest from rfl,
        skipWs_cons (by decide : isWsCh ']' = false)]
      rw [ite_head_neg ']' ',' (by decide), ite_head_pos]
      rfl
    | cons v2 vs2 =>
      have hX1 : dumpsItems (v2 :: vs2) ++ ']' :: rest =
          ',' :: ' ' :: (dumpsV v2 ++ (dumpsItems vs2 ++ ']' :: rest)) := by
        simp [dumpsItems]
      rw [hX1, skipWs_cons (by decide : isWsCh ',' = false), ite_head_pos,
        show (',' :: ' ' :: (dumpsV v2 ++ (dumpsItems vs2 ++
          ']' :: rest))).tail =
          ' ' :: (dumpsV v2 ++ (dumpsItems vs2 ++ ']' :: rest)) from rfl,
        skipWs_space, skipWs_dumpsV v2 (dumpsItems vs2 ++ ']' :: rest),
        rt_items n v2 vs2 rest (by
          simp only [needItems] at hf ⊢
          have := Nat.le_max_right (needV v) (needItems (v2 :: vs2))
          simp only [needItems] at this
          omega) hbvs]
      rfl

theorem rt_members (fuel : Nat) (p : String × Val)
    (ps : List (String × Val)) (rest : List Char)
    (hf : needPairs (p :: ps) ≤ fuel) (hb : bmpPairs (p :: ps) = true) :
    parseMembers fuel (encodeStringLit p.1 ++ ':' :: ' ' ::
        (dumpsV p.2 ++ (dumpsPairs ps ++ '}' :: rest))) =
      Option.some (p :: ps, rest) := by
  cases fuel with
  | zero =>
    simp only [needPairs] at hf
    omega
  | succ n =>
    have hfv : needV p.2 ≤ n := by
      simp only [needPairs] at hf
      have := Nat.le_max_left (needV p.2) (needPairs ps)
      omega
    have hbk : bmpChars p.1.data = true := by
      simp only [bmpPairs, Bool.and_eq_true] at hb
      exact hb.1.1
    have hbv : bmpV p.2 = true := by
      simp only [bmpPairs, Bool.and_eq_true] at hb
      exact hb.1.2
    have hbps : bmpPairs ps = true := by
      simp only [bmpPairs, Bool.and_eq_true] at hb
      exact hb.2
    have hX : ∀ c, (dumpsPairs ps ++ '}' :: rest).head? = Option.some c →
        isDigitCh c = false := by
      cases ps with
      | nil =>
        intro c hc
        simp only [dumpsPairs, List.nil_append, List.head?_cons,
          Option.some.injEq] at hc
        rw [← hc]
        decide
      | cons p2 ps2 =>
        intro c hc
        simp only [dumpsPairs, List.cons_append, List.head?_cons,
          Option.some.injEq] at hc
        rw [← hc]
        decide
    have hS : encodeStringLit p.1 ++ ':' :: ' ' ::
        (dumpsV p.2 ++ (dumpsPairs ps ++ '}' :: rest)) =
        '"' :: (encodeChars p.1.data ++ '"' :: ':' :: ' ' ::
          (dumpsV p.2 ++ (dumpsPairs ps ++ '}' :: rest))) := by
      simp [encodeStringLit]
    conv_lhs => unfold parseMembers
    rw [hS, skipWs_cons (by decide : isWsCh '"' = false), ite_head_pos,
      show ('"' :: (encodeChars p.1.data ++ '"' :: ':' :: ' ' ::
          (dumpsV p.2 ++ (dumpsPairs ps ++ '}' :: rest)))).tail =
        encodeChars p.1.data ++ '"' :: ':' :: ' ' ::
          (dumpsV p.2 ++ (dumpsPairs ps ++ '}' :: rest)) from rfl,
      parseStringLit_encode p.1.data (bmpChars_mem hbk) _]
    show (if (skipWs (':' :: ' ' :: (dumpsV p.2 ++ (dumpsPairs ps ++
          '}' :: rest)))).head? = Option.some ':' then
        match parseV n (skipWs (skipWs (':' :: ' ' :: (dumpsV p.2 ++
            (dumpsPairs ps ++ '}' :: rest)))).tail) with
        | Option.none => Option.none
        | Option.some (v, r4) =>
          if (skipWs r4).head? = Option.some ',' then
            (parseMembers n (skipWs (skipWs r4).tail)).map
              (fun q => ((String.mk p.1.data, v) :: q.1, q.2))
          else if (skipWs r4).head? = Option.some '}' then
            Option.some ([(String.mk p.1.data, v)], (skipWs r4).tail)
          else Option.none
      else Option.none) = Option.some (p :: ps, rest)
    rw [skipWs_cons (by decide : isWsCh ':' = false), ite_head_pos,
      show (':' :: ' ' :: (dumpsV p.2 ++ (dumpsPairs ps ++
          '}' :: rest))).tail =
        ' ' :: (dumpsV p.2 ++ (dumpsPairs ps ++ '}' :: rest)) from rfl,
      skipWs_space, skipWs_dumpsV p.2 (dumpsPairs ps ++ '}' :: rest),
      rt_V n p.2 (dumpsPairs ps ++ '}' :: rest) hfv hbv hX]
    show (if (skipWs (dumpsPairs ps ++ '}' :: rest)).head? =
          Option.some ',' then
        (parseMembers n
          (skipWs (skipWs (dumpsPairs ps ++ '}' :: rest)).tail)).map
          (fun q => ((String.mk p.1.data, p.2) :: q.1, q.2))
      else if (skipWs (dumpsPairs ps ++ '}' :: rest)).head? =
          Option.some '}' then
        Option.some ([(String.mk p.1.data, p.2)],
          (skipWs (dumpsPairs ps ++ '}' :: rest)).tail)
      else Option.none) = Option.some (p :: ps, rest)
    cases ps with
    | nil =>
      rw [show dumpsPairs [] ++ '}' :: rest = '}' :: rest from rfl,
        skipWs_cons (by decide : isWsCh '}' = false)]
      rw [ite_head_neg '}' ',' (by decide), ite_head_pos]
      rfl
    | cons p2 ps2 =>
      have hX1 : dumpsPairs (p2 :: ps2) ++ '}' :: rest =
          ',' :: ' ' :: (encodeStringLit p2.1 ++ ':' :: ' ' ::
            (dumpsV p2.2 ++ (dumpsPairs ps2 ++ '}' :: rest))) := by
        simp [dumpsPairs]
      rw [hX1, skipWs_cons (by decide : isWsCh ',' = false), ite_head_pos,
        show (',' :: ' ' :: (encodeStringLit p2.1 ++ ':' :: ' ' ::
            (dumpsV p2.2 ++ (dumpsPairs ps2 ++ '}' :: rest)))).tail =
          ' ' :: (encodeStringLit p2.1 ++ ':' :: ' ' ::
            (dumpsV p2.2 ++ (dumpsPairs ps2 ++ '}' :: rest))) from rfl,
        skipWs_space,
        show skipWs (encodeStringLit p2.1 ++ ':' :: ' ' ::
            (dumpsV p2.2 ++ (dumpsPairs ps2 ++ '}' :: rest))) =
          encodeStringLit p2.1 ++ ':' :: ' ' ::
            (dumpsV p2.2 ++ (dumpsPairs ps2 ++ '}' :: rest)) by
          rw [show encodeStringLit p2.1 ++ ':' :: ' ' ::
              (dumpsV p2.2 ++ (dumpsPairs ps2 ++ '}' :: rest)) =
              '"' :: (encodeChars p2.1.data ++ '"' :: ':' :: ' ' ::
                (dumpsV p2.2 ++ (dumpsPairs ps2 ++ '}' :: rest))) by
            simp [encodeStringLit]]
          exact skipWs_cons (by decide) _,
        rt_members n p2 ps2 rest (by
          simp only [needPairs] at hf ⊢
          have := Nat.le_max_right (needV p.2) (needPairs (p2 :: ps2))
          simp only [needPairs] at this
          omega) hbps]
      rfl

end

theorem intToChars_ne_nil (i : Int) : intToChars i ≠ [] := by
  obtain ⟨c, cs, hcs, _⟩ := intToChars_head i
  rw [hcs]
  simp

theorem val_sizeOf_pos (v : Val) : 0 < sizeOf v := by
  cases v <;> simp

theorem list_sizeOf_pos {α : Type} [SizeOf α] (l : List α) :
    0 < sizeOf l := by
  cases l <;> simp

theorem need_le_aux (n : Nat) :
    (∀ v : Val, sizeOf v ≤ n → needV v ≤ (dumpsV v).length) ∧
    (∀ (v : Val) (vs : List Val), sizeOf v + sizeOf vs ≤ n →
      needItems (v :: vs) ≤
        (dumpsV v).length + (dumpsItems vs).length + 1) ∧
    (∀ (p : String × Val) (ps : List (String × Val)),
      sizeOf p.2 + sizeOf ps ≤ n →
      needPairs (p :: ps) ≤
        (dumpsV p.2).length + (dumpsPairs ps).length + 1) := by
  induction n with
  | zero =>
    refine ⟨?_, ?_, ?_⟩
    · intro v hv
      exact absurd hv (by have := val_sizeOf_pos v; omega)
    · intro v vs hv
      exact absurd hv (by have := val_sizeOf_pos v; omega)
    · intro p ps hp
      exact absurd hp (by have := val_sizeOf_pos p.2; omega)
  | succ n ih =>
    obtain ⟨ihV, ihI, ihP⟩ := ih
    refine ⟨?_, ?_, ?_⟩
    · intro v hv
      cases v with
      | none => simp [needV, dumpsV]
      | bool b => cases b <;> simp [needV, dumpsV]
      | int i =>
        have h := intToChars_ne_nil i
        have h2 : 1 ≤ (intToChars i).length := by
          cases hx : intToChars i with
          | nil => exact absurd hx h
          | cons c cs => simp
        simpa [needV, dumpsV] using h2
      | str s => simp [needV, dumpsV, encodeStringLit]
      | list l =>
        cases l with
        | nil => simp [needV, dumpsV]
        | cons v2 vs2 =>
          simp only [Val.list.sizeOf_spec, List.cons.sizeOf_spec] at hv
          have h := ihI v2 vs2 (by omega)
          simp only [needV, dumpsV, List.length_cons, List.length_append,
            List.length_nil]
          omega
      | dict d =>
        cases d with
        | nil => simp [needV, dumpsV]
        | cons p ps =>
          simp only [Val.dict.sizeOf_spec, List.cons.sizeOf_spec] at hv
          obtain ⟨k, pv⟩ := p
          simp only [Prod.mk.sizeOf_spec] at hv
          have h := ihP (k, pv) ps (by simp; omega)
          simp only [needV, dumpsV, List.length_cons, List.length_append,
            List.length_nil] at h ⊢
          omega
    · intro v vs hv
      have h1 := ihV v (by have := list_sizeOf_pos vs; omega)
      cases vs with
      | nil =>
        simp only [needItems, dumpsItems, List.length_nil]
        omega
      | cons v2 vs2 =>
        simp only [List.cons.sizeOf_spec] at hv
        have h2 := ihI v2 vs2 (by omega)
        have hlen : (dumpsItems (v2 :: vs2)).length =
            (dumpsV v2).length + (dumpsItems vs2).length + 2 := by
          simp only [dumpsItems, List.length_cons, List.length_append]
          omega
        rw [show needItems (v :: v2 :: vs2) =
          1 + max (needV v) (needItems (v2 :: vs2)) from rfl, hlen]
        omega
    · intro p ps hp
      have h1 := ihV p.2 (by have := list_sizeOf_pos ps; omega)
      cases ps with
      | nil =>
        simp only [needPairs, dumpsPairs, List.length_nil]
        omega
      | cons p2 ps2 =>
        simp only [List.cons.sizeOf_spec] at hp
        obtain ⟨k2, pv2⟩ := p2
        simp only [Prod.mk.sizeOf_spec] at hp
        have h2 := ihP (k2, pv2) ps2 (by simp; omega)
        have hlen : (dumpsPairs ((k2, pv2) :: ps2)).length =
            (encodeStringLit k2).length + (dumpsV pv2).length +
              (dumpsPairs ps2).length + 4 := by
          simp only [dumpsPairs, encodeStringLit, List.length_cons,
            List.length_append]
          omega
        rw [show needPairs (p :: (k2, pv2) :: ps2) =
          1 + max (needV p.2) (needPairs ((k2, pv2) :: ps2)) from rfl, hlen]
        simp only [dumpsPairs, encodeStringLit, List.length_cons,
          List.length_append] at h2
        omega

theorem needV_le_len (v : Val) : needV v ≤ (dumpsV v).length :=
  (need_le_aux (sizeOf v)).1 v (Nat.le_refl _)

/-- The serializer-parser round trip on whole documents: parsing a dumped
value (with fuel from the document length, as `loads` uses) returns exactly
the value. -/
theorem loads_dumps (v : Val) (hb : bmpV v = true) :
    loads (dumps v) = Option.some v := by
  have hfuel : needV v ≤ (dumpsV v).length + 1 := by
    have := needV_le_len v
    omega
  have h := rt_V ((dumpsV v).length + 1) v [] hfuel hb
    (by intro c hc; simp at hc)
  rw [List.append_nil] at h
  unfold loads dumps
  rw [show (String.mk (dumpsV v)).length = (dumpsV v).length from rfl,
    show (String.mk (dumpsV v)).data = dumpsV v from rfl, h]
  rfl

/-! ## Claim C7 -/

/-- Claim C7: for every nonempty extra-vars mapping whose strings are basic
multilingual plane text, the string passed as the `--extra-vars` argument is
exactly the serialized mapping, it is valid JSON (the parser accepts it),
and deserializing it returns a mapping equal to the original — the
serialize/deserialize round trip. -/
theorem C7_extra_vars_roundtrip (path : String) (ev : List (String × Val))
    (hne : ev ≠ []) (hb : bmpV (Val.dict ev) = true) :
    buildCmd path ev Option.none Option.none false =
      ["ansible-playbook", path, "--extra-vars", dumps (Val.dict ev)] ∧
    loads (dumps (Val.dict ev)) = Option.some (Val.dict ev) := by
  constructor
  · unfold buildCmd
    cases ev with
    | nil => exact absurd rfl hne
    | cons p ps => rfl
  · exact loads_dumps _ hb

/-- Witness for claim C7: the spec example `a ↦ 1, b ↦ "x"` serializes to
the Python-separator JSON text and parses back to an equal mapping. -/
theorem C7_witness :
    buildCmd "/pb/site.yml" [("a", Val.int 1), ("b", Val.str "x")]
      Option.none Option.none false =
      ["ansible-playbook", "/pb/site.yml", "--extra-vars",
        "\x7b\"a\": 1, \"b\": \"x\"\x7d"] ∧
    loads "\x7b\"a\": 1, \"b\": \"x\"\x7d" =
      Option.some (Val.dict [("a", Val.int 1), ("b", Val.str "x")]) := by
  have h := C7_extra_vars_roundtrip "/pb/site.yml"
    [("a", Val.int 1), ("b", Val.str "x")] (by simp) (by rfl)
  refine ⟨h.1.trans (by rfl), ?_⟩
  rw [show ("\x7b\"a\": 1, \"b\": \"x\"\x7d" : String) =
    dumps (Val.dict [("a", Val.int 1), ("b", Val.str "x")]) from rfl]
  exact h.2

end ProxmoxNlp
